import Mathlib

/-!
# nrg2iso: a shallow embedding of `main.go`

The program opens a Nero image (`.nrg`), detects the container variant from the
trailer, reads the offset of the chunk stream from the trailer, walks the chunk
stream until it meets a `DAOX` chunk and copies the byte range
`[Index1, EndOfTrack)` of the source into the target file.

The embedding keeps the source's structure: `getFormat`, `getFirstChunkOffset`,
`readChunk` and `convert` are translated function by function.  An open
`*os.File` is a byte list with a cursor; Go's `error` results are `Except`
values; the unbounded `for` loop of `convert` is step-indexed.
-/

namespace Nrg2Iso

/-! ## Bytes and big-endian integers -/

abbrev Byte := UInt8

/-- The bytes `[p, p + n)` of `data` (fewer when `data` is too short). -/
def slice (data : List Byte) (p n : Nat) : List Byte :=
  (data.drop p).take n

/-- Big-endian unsigned value of a byte string (`binary.BigEndian.UintN`). -/
def beUint (bs : List Byte) : Nat :=
  bs.foldl (fun acc b => acc * 256 + b.toNat) 0

/-- Reinterpretation of an unsigned `w`-bit value as a two's-complement signed one
(Go's conversion `intN(uintN)`). -/
def toSigned (w : Nat) (n : Nat) : Int :=
  if n % 2 ^ w < 2 ^ (w - 1) then ((n % 2 ^ w : Nat) : Int)
  else ((n % 2 ^ w : Nat) : Int) - ((2 ^ w : Nat) : Int)

/-- Big-endian signed 32-bit value of four bytes. -/
def beInt32 (bs : List Byte) : Int := toSigned 32 (beUint bs)

/-- Big-endian signed 64-bit value of eight bytes. -/
def beInt64 (bs : List Byte) : Int := toSigned 64 (beUint bs)

/-- The `int64` that Go's arithmetic on `int64` operands produces when the exact
result is `i`: `i` modulo `2^64`, read as two's complement. -/
def wrapInt64 (i : Int) : Int := toSigned 64 (i % 2 ^ 64).toNat

/-! ## Errors -/

/-- Go `error` values the program can produce. -/
inductive GoError where
  /-- `os.Open` failed. -/
  | openError
  /-- `os.Create` failed. -/
  | createError
  /-- `Seek` to a negative position (`EINVAL`). -/
  | EINVAL
  /-- The sentinel `io.EOF`. -/
  | EOF
  /-- The sentinel `io.ErrUnexpectedEOF`. -/
  | ErrUnexpectedEOF
  /-- The result of `fmt.Errorf(msg)`. -/
  | errorf (msg : String)
  /-- The result of `fmt.Errorf("uknown chunk ID: %s", chunkID)`. -/
  | unknownChunkID (chunkID : List Byte)
  /-- The result of `fmt.Errorf(msg + ": %w", err)` for a non-nil `err`. -/
  | wrap (msg : String) (err : GoError)
  /-- The result of `fmt.Errorf(msg + ": %w", nil)`: a non-nil error wrapping nothing. -/
  | wrapNil (msg : String)
  deriving DecidableEq, Repr

deriving instance DecidableEq for Except

/-! ## Files -/

/-- An open `*os.File` on a regular file: its contents and the cursor.  The cursor
may stand past the end of the contents, as the operating system allows. -/
structure File where
  data : List Byte
  pos : Nat
  deriving DecidableEq, Repr

/-- The `whence` argument of `Seek`. -/
inductive Whence where
  | SeekStart
  | SeekCurrent
  | SeekEnd
  deriving DecidableEq, Repr

/-- The method `(*os.File).Seek`: the new position is the anchor plus `offset`; a
negative result is refused with `EINVAL` and the cursor is not moved.  Positions
are unbounded here: overflow of the 64-bit position, which needs a file of about
`2^63` bytes, is not modelled. -/
def File.Seek (f : File) (offset : Int) (whence : Whence) : Except GoError (Int × File) :=
  let base : Int :=
    match whence with
    | .SeekStart => 0
    | .SeekCurrent => (f.pos : Int)
    | .SeekEnd => (f.data.length : Int)
  if base + offset < 0 then .error .EINVAL
  else .ok (base + offset, { f with pos := (base + offset).toNat })

/-- The method `(*os.File).Read` with a buffer of `n > 0` bytes on a regular file:
at or past the end it returns `io.EOF`, otherwise it returns the bytes that are
there, at most `n`. -/
def File.Read (f : File) (n : Nat) : Except GoError (List Byte × File) :=
  if (f.data.drop f.pos).length = 0 then .error .EOF
  else
    let got := slice f.data f.pos n
    .ok (got, { f with pos := f.pos + got.length })

/-- The read performed by `binary.Read` for a value whose encoding takes `n` bytes:
`io.ReadFull` into a buffer of `n` bytes.  With `n = 0` nothing is read; with no
byte left the error is `io.EOF`; with some but fewer than `n` bytes left it is
`io.ErrUnexpectedEOF`. -/
def binaryRead (f : File) (n : Nat) : Except GoError (List Byte × File) :=
  if n = 0 then .ok ([], f)
  else if (f.data.drop f.pos).length = 0 then .error .EOF
  else if (f.data.drop f.pos).length < n then .error .ErrUnexpectedEOF
  else .ok (slice f.data f.pos n, { f with pos := f.pos + n })

/-! ## Container formats -/

inductive NeroFormat where
  | NeroV1
  | NeroV2
  deriving DecidableEq, Repr

/-- The bytes of `"NERO"`. -/
def NeroV1FormatCode : List Byte := [0x4E, 0x45, 0x52, 0x4F]

/-- The bytes of `"NER5"`. -/
def NeroV2FormatCode : List Byte := [0x4E, 0x45, 0x52, 0x35]

/-- An entry of the table `formats` in `getFormat`. -/
structure FormatEntry where
  offset : Int
  format : NeroFormat
  code : List Byte
  deriving DecidableEq, Repr

/-- The table `formats` of `getFormat`, in its order. -/
def formats : List FormatEntry :=
  [ { offset := -8, code := NeroV1FormatCode, format := .NeroV1 },
    { offset := -12, code := NeroV2FormatCode, format := .NeroV2 } ]

/-- The loop `for _, f := range formats` of `getFormat`, with the statement after
it.  The buffer has four zero bytes before the read. -/
def getFormatLoop : List FormatEntry → File → Except GoError (NeroFormat × File)
  | [], _ => .error (.errorf "unable to determine format")
  | f :: rest, file =>
    match file.Seek f.offset .SeekEnd with
    | .error err => .error (.wrap "seek error" err)
    | .ok (_, file) =>
      match file.Read 4 with
      | .error err => .error err
      | .ok (got, file) =>
        let buffer := got ++ List.replicate (4 - got.length) (0 : Byte)
        if buffer = f.code then .ok (f.format, file)
        else getFormatLoop rest file

def getFormat (file : File) : Except GoError (NeroFormat × File) :=
  getFormatLoop formats file

/-- The function `getFirstChunkOffset`.  The value read is the `int64` variable
`offset`, so `binary.Read` asks for eight bytes whatever `size` is. -/
def getFirstChunkOffset (file : File) (format : NeroFormat) : Except GoError (Int × File) :=
  let size : Nat := if format = .NeroV2 then 8 else 4
  match file.Seek (-(size : Int)) .SeekEnd with
  | .error err => .error err
  | .ok (_, file) =>
    match binaryRead file 8 with
    | .error err => .error err
    | .ok (bs, file) => .ok (beInt64 bs, file)

/-! ## Chunk records -/

/-- The Go types of the fields of the chunk records. -/
inductive FieldType where
  | byte
  | uint16
  | uint32
  | int32
  | int64
  | byteArray (n : Nat)
  deriving DecidableEq, Repr

/-- Number of bytes `encoding/binary` reads for a field (no padding). -/
def FieldType.encodedSize : FieldType → Nat
  | .byte => 1
  | .uint16 => 2
  | .uint32 => 4
  | .int32 => 4
  | .int64 => 8
  | .byteArray n => n

/-- In-memory size of a field (`unsafe.Sizeof`). -/
def FieldType.memSize : FieldType → Nat
  | .byte => 1
  | .uint16 => 2
  | .uint32 => 4
  | .int32 => 4
  | .int64 => 8
  | .byteArray n => n

/-- In-memory alignment of a field on a 64-bit target (`unsafe.Alignof`). -/
def FieldType.align : FieldType → Nat
  | .byte => 1
  | .uint16 => 2
  | .uint32 => 4
  | .int32 => 4
  | .int64 => 8
  | .byteArray _ => 1

/-- Rounds `n` up to a multiple of `a`. -/
def alignUp (n a : Nat) : Nat := (n + a - 1) / a * a

/-- Go's struct layout: every field is placed at the next offset that is a
multiple of its alignment; the size is the end of the last field rounded up to
the largest alignment among the fields (1 for a struct with no field). -/
def structMemSize (fields : List FieldType) : Nat :=
  alignUp (fields.foldl (fun off t => alignUp off t.align + t.memSize) 0)
    (fields.foldl (fun a t => max a t.align) 1)

/-- What `encoding/binary` reads for a struct: the sum of the field sizes. -/
def structEncodedSize (fields : List FieldType) : Nat :=
  (fields.map FieldType.encodedSize).sum

structure ChunkHeader where
  ID : List Byte
  Size : Nat
  deriving DecidableEq, Repr

structure CUEX where
  Mode : Byte
  TrackNumber : Byte
  IndexNumber : Byte
  Padding : Byte
  LbaPosition : Int
  deriving DecidableEq, Repr

structure DAOX where
  Size : Nat
  Upc : List Byte
  Padding : Byte
  TocType : Nat
  FirstTrack : Byte
  LastTrack : Byte
  Isrc : List Byte
  SectorSize : Nat
  Mode : Nat
  Uknown : Nat
  Index0 : Int
  Index1 : Int
  EndOfTrack : Int
  deriving DecidableEq, Repr

structure SINF where
  TracksInSession : Int
  deriving DecidableEq, Repr

structure MTYP where
  Uknown : Int
  deriving DecidableEq, Repr

structure END where
  deriving DecidableEq, Repr

/-- The record types `readChunk` can allocate, one per case of its `switch`. -/
inductive ChunkType where
  | CUEX
  | DAOX
  | SINF
  | MTYP
  | END
  deriving DecidableEq, Repr

/-- The field types of each record, in declaration order. -/
def ChunkType.fields : ChunkType → List FieldType
  | .CUEX => [.byte, .byte, .byte, .byte, .int32]
  | .DAOX => [.uint32, .byteArray 13, .byte, .uint16, .byte, .byte, .byteArray 12,
              .uint16, .uint16, .uint16, .int64, .int64, .int64]
  | .SINF => [.int32]
  | .MTYP => [.int32]
  | .END => []

/-- Bytes consumed by `binary.Read(file, binary.BigEndian, chunk)`. -/
def ChunkType.encodedSize (t : ChunkType) : Nat := structEncodedSize t.fields

/-- The value of `reflect.Indirect(reflect.ValueOf(chunk)).Type().Size()`. -/
def ChunkType.memSize (t : ChunkType) : Nat := structMemSize t.fields

/-- The four bytes of the tag of each case of the `switch`. -/
def ChunkType.tag : ChunkType → List Byte
  | .CUEX => [0x43, 0x55, 0x45, 0x58]
  | .DAOX => [0x44, 0x41, 0x4F, 0x58]
  | .SINF => [0x53, 0x49, 0x4E, 0x46]
  | .MTYP => [0x4D, 0x54, 0x59, 0x50]
  | .END => [0x45, 0x4E, 0x44, 0x21]

/-- The `switch chunkID` of `readChunk`: the record type allocated for a tag, or
`none` in the `default` case. -/
def chunkTypeOf (chunkID : List Byte) : Option ChunkType :=
  if chunkID = ChunkType.tag .CUEX then some .CUEX
  else if chunkID = ChunkType.tag .DAOX then some .DAOX
  else if chunkID = ChunkType.tag .SINF then some .SINF
  else if chunkID = ChunkType.tag .MTYP then some .MTYP
  else if chunkID = ChunkType.tag .END then some .END
  else none

/-- A decoded chunk: the dynamic value behind the `any` that `readChunk` returns. -/
inductive Chunk where
  | CUEX (c : CUEX)
  | DAOX (c : DAOX)
  | SINF (c : SINF)
  | MTYP (c : MTYP)
  | END (c : END)
  deriving DecidableEq, Repr

/-- Decoding of the 8-byte chunk header. -/
def decodeChunkHeader (b : List Byte) : ChunkHeader :=
  { ID := slice b 0 4, Size := beUint (slice b 4 4) }

def decodeCUEX (b : List Byte) : CUEX :=
  { Mode := b.getD 0 0
    TrackNumber := b.getD 1 0
    IndexNumber := b.getD 2 0
    Padding := b.getD 3 0
    LbaPosition := beInt32 (slice b 4 4) }

def decodeDAOX (b : List Byte) : DAOX :=
  { Size := beUint (slice b 0 4)
    Upc := slice b 4 13
    Padding := b.getD 17 0
    TocType := beUint (slice b 18 2)
    FirstTrack := b.getD 20 0
    LastTrack := b.getD 21 0
    Isrc := slice b 22 12
    SectorSize := beUint (slice b 34 2)
    Mode := beUint (slice b 36 2)
    Uknown := beUint (slice b 38 2)
    Index0 := beInt64 (slice b 40 8)
    Index1 := beInt64 (slice b 48 8)
    EndOfTrack := beInt64 (slice b 56 8) }

def decodeSINF (b : List Byte) : SINF :=
  { TracksInSession := beInt32 (slice b 0 4) }

def decodeMTYP (b : List Byte) : MTYP :=
  { Uknown := beInt32 (slice b 0 4) }

/-- The decoder of `binary.Read` for each record type: the fields in declaration
order, big-endian, one after the other. -/
def decodeChunk : ChunkType → List Byte → Chunk
  | .CUEX, b => .CUEX (decodeCUEX b)
  | .DAOX, b => .DAOX (decodeDAOX b)
  | .SINF, b => .SINF (decodeSINF b)
  | .MTYP, b => .MTYP (decodeMTYP b)
  | .END, _ => .END {}

def readChunk (file : File) : Except GoError (Chunk × File) :=
  match binaryRead file 8 with
  | .error err => .error (.wrap "read chunk header error" err)
  | .ok (hb, file) =>
    let chunkHeader := decodeChunkHeader hb
    let chunkID := chunkHeader.ID
    match chunkTypeOf chunkID with
    | none => .error (.unknownChunkID chunkID)
    | some t =>
      match binaryRead file t.encodedSize with
      | .error err => .error (.wrap "read chunk error" err)
      | .ok (bb, file) =>
        let chunk := decodeChunk t bb
        let chunkBodySize := t.memSize
        let offset : Int := (chunkHeader.Size : Int) - (chunkBodySize : Int)
        if offset > 0 then
          match file.Seek offset .SeekCurrent with
          | .error err => .error (.wrap "seek error" err)
          | .ok (_, file) => .ok (chunk, file)
        else .ok (chunk, file)

/-! ## The driver -/

/-- The files the program touches: the contents of `cli.SourceNRG` (`none` when it
cannot be opened), the contents of `cli.TargetISO` (`none` when it does not
exist) and whether `os.Create` on it succeeds.  The two paths name different
files. -/
structure FileSystem where
  source : Option (List Byte)
  target : Option (List Byte)
  targetCreatable : Bool
  deriving DecidableEq, Repr

/-- What a run of `convert` leaves: its return value (`none` is the nil error) and
the target file. -/
structure Outcome where
  err : Option GoError
  target : Option (List Byte)
  deriving DecidableEq, Repr

/-- The call `io.CopyN(dst, src, n)` from the source at its cursor into an empty
target: the bytes written and the error.  For `n ≤ 0` nothing is read and the
error is nil; when the source ends before `n` bytes the error is `io.EOF` and the
bytes read so far stay written. -/
def CopyN (src : File) (n : Int) : List Byte × Option GoError :=
  if n ≤ 0 then ([], none)
  else
    let written := slice src.data src.pos n.toNat
    if (written.length : Int) = n then (written, none) else (written, some .EOF)

/-- The body of `if daox, ok := chunk.(*DAOX); ok` in `convert`, up to `break`,
followed by the `return nil` after the loop.  The count handed to `io.CopyN` is the
`int64` difference `daox.EndOfTrack-daox.Index1`, which wraps around. -/
def extract (inFile : File) (daox : DAOX) (fs : FileSystem) : Outcome :=
  if fs.targetCreatable = false then
    { err := some (.wrap "create target file error" .createError), target := fs.target }
  else
    match inFile.Seek daox.Index1 .SeekStart with
    | .error err => { err := some (.wrap "seek error" err), target := some [] }
    | .ok (_, inFile) =>
      match CopyN inFile (wrapInt64 (daox.EndOfTrack - daox.Index1)) with
      | (written, some err) => { err := some (.wrap "copy error" err), target := some written }
      | (written, none) => { err := none, target := some written }

/-- The `for` loop of `convert`, run for at most `fuel` iterations; `none` when the
loop has not left after `fuel` iterations. -/
def chunkLoop : Nat → File → FileSystem → Option Outcome
  | 0, _, _ => none
  | fuel + 1, inFile, fs =>
    match readChunk inFile with
    | .error err =>
      some { err := some (.wrap "failed reading source file" err), target := fs.target }
    | .ok (chunk, inFile) =>
      match chunk with
      | .DAOX daox => some (extract inFile daox fs)
      | .END _ =>
        some { err := some (.wrapNil "image format not supported"), target := fs.target }
      | _ => chunkLoop fuel inFile fs

/-- The function `convert`, its loop bounded by `fuel` iterations. -/
def convert (fuel : Nat) (fs : FileSystem) : Option Outcome :=
  match fs.source with
  | none =>
    some { err := some (.wrap "failed to open source file" .openError), target := fs.target }
  | some data =>
    let inFile : File := { data := data, pos := 0 }
    match getFormat inFile with
    | .error err =>
      some { err := some (.wrap "failed parsing source file" err), target := fs.target }
    | .ok (format, inFile) =>
      match getFirstChunkOffset inFile format with
      | .error err =>
        some { err := some (.wrap "failed parsing source file" err), target := fs.target }
      | .ok (firstChunkOffset, inFile) =>
        match inFile.Seek firstChunkOffset .SeekStart with
        | .error err =>
          some { err := some (.wrap "failed reading source file" err), target := fs.target }
        | .ok (_, inFile) => chunkLoop fuel inFile fs

/-! ## Vocabulary for chunk streams

These predicates describe the bytes of a file; they are used to state what the
functions above do on a given chunk stream. -/

/-- The declared body size in the chunk header that starts at position `p`. -/
def declaredSizeAt (data : List Byte) (p : Nat) : Nat :=
  beUint (slice data (p + 4) 4)

/-- At position `p` stands a header with the tag of `t`, and the bytes of the known
layout of `t` after the header are all in the file. -/
def chunkAt (data : List Byte) (p : Nat) (t : ChunkType) : Prop :=
  slice data p 4 = t.tag ∧ p + 8 + t.encodedSize ≤ data.length

instance (data : List Byte) (p : Nat) (t : ChunkType) : Decidable (chunkAt data p t) := by
  unfold chunkAt; infer_instance

/-- A well-formed chunk of type `t` at position `p`: `chunkAt`, and the declared
body size is at least the size of the known layout. -/
def wellFormedAt (data : List Byte) (p : Nat) (t : ChunkType) : Prop :=
  chunkAt data p t ∧ t.encodedSize ≤ declaredSizeAt data p

instance (data : List Byte) (p : Nat) (t : ChunkType) : Decidable (wellFormedAt data p t) := by
  unfold wellFormedAt; infer_instance

/-- A well-formed `CUEX`, `SINF` or `MTYP` chunk at position `p`. -/
def ignoredAt (data : List Byte) (p : Nat) : Prop :=
  wellFormedAt data p .CUEX ∨ wellFormedAt data p .SINF ∨ wellFormedAt data p .MTYP

instance (data : List Byte) (p : Nat) : Decidable (ignoredAt data p) := by
  unfold ignoredAt; infer_instance

/-- Starting at position `p`, `n` well-formed `CUEX` / `SINF` / `MTYP` chunks follow
one another (each one starts where the declared body of the previous one ends), and
the last one ends at position `q`. -/
def ignoredRun (data : List Byte) : Nat → Nat → Nat → Prop
  | 0, p, q => q = p
  | n + 1, p, q => ignoredAt data p ∧ ignoredRun data n (p + 8 + declaredSizeAt data p) q

instance ignoredRunDecidable (data : List Byte) :
    (n p q : Nat) → Decidable (ignoredRun data n p q)
  | 0, p, q => by unfold ignoredRun; infer_instance
  | n + 1, p, q => by
    unfold ignoredRun
    exact @instDecidableAnd _ _ _ (ignoredRunDecidable data n _ q)

/-- The trailer of a `NeroV2` container whose chunk stream starts at `off`: the
file ends with `NER5` and the eight-byte big-endian offset `off`, and the upper half
of that offset does not spell `NERO`. -/
def NeroV2TrailerAt (data : List Byte) (off : Nat) : Prop :=
  12 ≤ data.length
    ∧ slice data (data.length - 12) 4 = NeroV2FormatCode
    ∧ slice data (data.length - 8) 4 ≠ NeroV1FormatCode
    ∧ beInt64 (slice data (data.length - 8) 8) = (off : Int)

instance (data : List Byte) (off : Nat) : Decidable (NeroV2TrailerAt data off) := by
  unfold NeroV2TrailerAt; infer_instance

/-- After a header at `p` with a `CUEX`, `SINF` or `MTYP` tag whose known layout is
in the file: the position of the next header, `8 + max declared layout` bytes
further.  `none` when no such chunk stands at `p`. -/
def skipTo (data : List Byte) (p : Nat) : Option Nat :=
  if chunkAt data p .CUEX then
    some (p + 8 + max (declaredSizeAt data p) (ChunkType.encodedSize .CUEX))
  else if chunkAt data p .SINF then
    some (p + 8 + max (declaredSizeAt data p) (ChunkType.encodedSize .SINF))
  else if chunkAt data p .MTYP then
    some (p + 8 + max (declaredSizeAt data p) (ChunkType.encodedSize .MTYP))
  else none

/-- The position reached from `p` after passing over `n` chunks with a `CUEX`,
`SINF` or `MTYP` tag; `none` when fewer than `n` such chunks follow one another. -/
def loopPos (data : List Byte) : Nat → Nat → Option Nat
  | 0, p => some p
  | n + 1, p =>
    match skipTo data p with
    | none => none
    | some p1 => loopPos data n p1

/-- The run of `convert` on the source `data` reads a `DAOX` chunk at position
`q`: the source has a `NeroV2` trailer, and from the trailer offset the loop passes
over some number of `CUEX` / `SINF` / `MTYP` chunks and arrives at `q`, where a
`DAOX` chunk stands. -/
def decodesDAOXAt (data : List Byte) (q : Nat) : Prop :=
  ∃ off n : Nat, NeroV2TrailerAt data off ∧ loopPos data n off = some q ∧ chunkAt data q .DAOX

/-- The errors of `readChunk` for input that ends too early: `io.EOF` or
`io.ErrUnexpectedEOF` from the read of the header or of the record. -/
def truncatedInput (e : GoError) : Prop :=
  e ∈ [GoError.wrap "read chunk header error" .EOF,
       GoError.wrap "read chunk header error" .ErrUnexpectedEOF,
       GoError.wrap "read chunk error" .EOF,
       GoError.wrap "read chunk error" .ErrUnexpectedEOF]

instance (e : GoError) : Decidable (truncatedInput e) := by
  unfold truncatedInput; infer_instance

/-! ## The decoder of `encoding/binary`, field by field -/

/-- A decoded field of a record. -/
inductive FieldValue where
  | byte (b : Byte)
  | uint (n : Nat)
  | int (i : Int)
  | bytes (bs : List Byte)
  deriving DecidableEq, Repr

/-- The value `encoding/binary` gives a field from the bytes of that field, with
`binary.BigEndian`: unsigned types take the unsigned value, signed types its
two's-complement reading, byte arrays the bytes. -/
def decodeField : FieldType → List Byte → FieldValue
  | .byte, bs => .byte (bs.getD 0 0)
  | .uint16, bs => .uint (beUint bs)
  | .uint32, bs => .uint (beUint bs)
  | .int32, bs => .int (beInt32 bs)
  | .int64, bs => .int (beInt64 bs)
  | .byteArray _, bs => .bytes bs

/-- The decoder of `encoding/binary` on a struct: the fields are filled in
declaration order, each from the next `encodedSize` bytes of the buffer. -/
def decodeFields : List FieldType → List Byte → List FieldValue
  | [], _ => []
  | t :: ts, bs => decodeField t (bs.take t.encodedSize) :: decodeFields ts (bs.drop t.encodedSize)

/-- The fields of a `DAOX` record in declaration order. -/
def DAOX.values (d : DAOX) : List FieldValue :=
  [.uint d.Size, .bytes d.Upc, .byte d.Padding, .uint d.TocType, .byte d.FirstTrack,
   .byte d.LastTrack, .bytes d.Isrc, .uint d.SectorSize, .uint d.Mode, .uint d.Uknown,
   .int d.Index0, .int d.Index1, .int d.EndOfTrack]

/-! ## Basic facts about the primitives -/

theorem slice_length (data : List Byte) (p n : Nat) (h : p + n ≤ data.length) :
    (slice data p n).length = n := by
  simp only [slice, List.length_take, List.length_drop]
  omega

theorem slice_length_le (data : List Byte) (p n : Nat) : (slice data p n).length ≤ n := by
  simp only [slice, List.length_take, List.length_drop]
  omega

theorem beUint_foldl_lt (bs : List Byte) (acc : Nat) :
    bs.foldl (fun a b => a * 256 + b.toNat) acc < (acc + 1) * 256 ^ bs.length := by
  induction bs generalizing acc with
  | nil => simp
  | cons b bs ih =>
    have hb : b.toNat < 256 := b.val.isLt
    have h1 := ih (acc * 256 + b.toNat)
    simp only [List.foldl_cons, List.length_cons]
    calc List.foldl (fun a b => a * 256 + b.toNat) (acc * 256 + b.toNat) bs
        < (acc * 256 + b.toNat + 1) * 256 ^ bs.length := h1
      _ ≤ ((acc + 1) * 256) * 256 ^ bs.length := Nat.mul_le_mul_right _ (by omega)
      _ = (acc + 1) * 256 ^ (bs.length + 1) := by ring

theorem beUint_lt (bs : List Byte) : beUint bs < 256 ^ bs.length := by
  have h := beUint_foldl_lt bs 0
  simpa [beUint] using h

theorem Seek_End_ok (f : File) (n : Nat) (h : n ≤ f.data.length) :
    f.Seek (-(n : Int)) .SeekEnd
      = .ok (((f.data.length - n : Nat) : Int), { data := f.data, pos := f.data.length - n }) := by
  have h2 : (f.data.length : Int) + -(n : Int) = ((f.data.length - n : Nat) : Int) := by omega
  simp only [File.Seek, h2]
  rw [if_neg (by omega)]
  simp only [Int.toNat_ofNat]

theorem Seek_End_error (f : File) (n : Nat) (h : f.data.length < n) :
    f.Seek (-(n : Int)) .SeekEnd = .error .EINVAL := by
  have h1 : (f.data.length : Int) + -(n : Int) < 0 := by omega
  simp only [File.Seek, h1, if_true]

theorem Seek_Start_ok (f : File) (n : Nat) :
    f.Seek (n : Int) .SeekStart = .ok ((n : Int), { data := f.data, pos := n }) := by
  simp only [File.Seek, Int.zero_add]
  rw [if_neg (by omega)]
  simp only [Int.toNat_ofNat]

theorem Seek_Start_error (f : File) (i : Int) (h : i < 0) :
    f.Seek i .SeekStart = .error .EINVAL := by
  have h1 : (0 : Int) + i < 0 := by omega
  simp only [File.Seek, h1, if_true]

theorem Read_ok (f : File) (n : Nat) (hn : 0 < n) (h : f.pos + n ≤ f.data.length) :
    f.Read n = .ok (slice f.data f.pos n, { data := f.data, pos := f.pos + n }) := by
  have h1 : ¬ ((f.data.drop f.pos).length = 0) := by
    simp only [List.length_drop]; omega
  simp only [File.Read, h1, if_false, slice_length f.data f.pos n h]

theorem binaryRead_ok (f : File) (n : Nat) (h : f.pos + n ≤ f.data.length) :
    binaryRead f n = .ok (slice f.data f.pos n, { data := f.data, pos := f.pos + n }) := by
  by_cases hn : n = 0
  · subst hn
    simp [binaryRead, slice]
  · have h1 : ¬ ((f.data.drop f.pos).length = 0) := by
      simp only [List.length_drop]; omega
    have h2 : ¬ ((f.data.drop f.pos).length < n) := by
      simp only [List.length_drop]; omega
    simp only [binaryRead, hn, h1, h2, if_false]

theorem binaryRead_error (f : File) (n : Nat) (hn0 : 0 < n) (h : f.data.length < f.pos + n) :
    binaryRead f n = .error (if f.data.length ≤ f.pos then .EOF else .ErrUnexpectedEOF) := by
  have hn : ¬ (n = 0) := by omega
  by_cases h0 : f.data.length ≤ f.pos
  · have h1 : (f.data.drop f.pos).length = 0 := by
      simp only [List.length_drop]; omega
    simp only [binaryRead, hn, h1, h0, if_true, if_false]
  · have h1 : ¬ ((f.data.drop f.pos).length = 0) := by
      simp only [List.length_drop]; omega
    have h2 : (f.data.drop f.pos).length < n := by
      simp only [List.length_drop]; omega
    simp only [binaryRead, hn, h1, h2, h0, if_true, if_false]

/-! ## Format detection -/

/-- One iteration of the loop of `getFormat` on a file long enough for the seek. -/
theorem getFormatLoop_cons_ok (e : FormatEntry) (rest : List FormatEntry) (f : File) (n : Nat)
    (he : e.offset = -(n : Int)) (h4 : 4 ≤ n) (hn : n ≤ f.data.length) :
    getFormatLoop (e :: rest) f
      = if slice f.data (f.data.length - n) 4 = e.code
        then .ok (e.format, { data := f.data, pos := f.data.length - n + 4 })
        else getFormatLoop rest { data := f.data, pos := f.data.length - n + 4 } := by
  have hlen : (slice f.data (f.data.length - n) 4).length = 4 :=
    slice_length _ _ _ (by omega)
  rw [getFormatLoop, he, Seek_End_ok f n hn]
  simp only []
  rw [Read_ok _ 4 (by omega) (by simp only []; omega)]
  simp only [hlen, Nat.sub_self, List.replicate_zero, List.append_nil]

/-- One iteration of the loop of `getFormat` on a file too short for the seek. -/
theorem getFormatLoop_cons_short (e : FormatEntry) (rest : List FormatEntry) (f : File) (n : Nat)
    (he : e.offset = -(n : Int)) (hn : f.data.length < n) :
    getFormatLoop (e :: rest) f = .error (.wrap "seek error" .EINVAL) := by
  rw [getFormatLoop, he, Seek_End_error f n hn]

theorem getFormat_short (f : File) (h : f.data.length < 8) :
    getFormat f = .error (.wrap "seek error" .EINVAL) := by
  rw [getFormat, formats, getFormatLoop_cons_short _ _ f 8 rfl h]

theorem getFormat_V1 (f : File) (h : 8 ≤ f.data.length)
    (hcode : slice f.data (f.data.length - 8) 4 = NeroV1FormatCode) :
    getFormat f = .ok (.NeroV1, { data := f.data, pos := f.data.length - 8 + 4 }) := by
  rw [getFormat, formats, getFormatLoop_cons_ok _ _ f 8 rfl (by omega) h]
  simp only [hcode, if_true]

theorem getFormat_mid (f : File) (h : 8 ≤ f.data.length) (h12 : f.data.length < 12)
    (hcode : slice f.data (f.data.length - 8) 4 ≠ NeroV1FormatCode) :
    getFormat f = .error (.wrap "seek error" .EINVAL) := by
  rw [getFormat, formats, getFormatLoop_cons_ok _ _ f 8 rfl (by omega) h]
  simp only [hcode, if_false]
  rw [getFormatLoop_cons_short _ _ _ 12 rfl (by simp only []; omega)]

theorem getFormat_V2 (f : File) (h : 12 ≤ f.data.length)
    (hcode1 : slice f.data (f.data.length - 8) 4 ≠ NeroV1FormatCode)
    (hcode2 : slice f.data (f.data.length - 12) 4 = NeroV2FormatCode) :
    getFormat f = .ok (.NeroV2, { data := f.data, pos := f.data.length - 12 + 4 }) := by
  rw [getFormat, formats, getFormatLoop_cons_ok _ _ f 8 rfl (by omega) (by omega)]
  simp only [hcode1, if_false]
  rw [getFormatLoop_cons_ok _ _ _ 12 rfl (by omega) (by simp only []; omega)]
  simp only [hcode2, if_true]

theorem getFormat_none (f : File) (h : 12 ≤ f.data.length)
    (hcode1 : slice f.data (f.data.length - 8) 4 ≠ NeroV1FormatCode)
    (hcode2 : slice f.data (f.data.length - 12) 4 ≠ NeroV2FormatCode) :
    getFormat f = .error (.errorf "unable to determine format") := by
  rw [getFormat, formats, getFormatLoop_cons_ok _ _ f 8 rfl (by omega) (by omega)]
  simp only [hcode1, if_false]
  rw [getFormatLoop_cons_ok _ _ _ 12 rfl (by omega) (by simp only []; omega)]
  simp only [hcode2, if_false]
  rw [getFormatLoop]

/-- The file is not changed by `getFormat`. -/
theorem getFormat_data (f g : File) (fmt : NeroFormat) (h : getFormat f = .ok (fmt, g)) :
    g.data = f.data := by
  by_cases h8 : f.data.length < 8
  · rw [getFormat_short f h8] at h; cases h
  · by_cases hc1 : slice f.data (f.data.length - 8) 4 = NeroV1FormatCode
    · rw [getFormat_V1 f (by omega) hc1] at h
      cases h; rfl
    · by_cases h12 : f.data.length < 12
      · rw [getFormat_mid f (by omega) h12 hc1] at h; cases h
      · by_cases hc2 : slice f.data (f.data.length - 12) 4 = NeroV2FormatCode
        · rw [getFormat_V2 f (by omega) hc1 hc2] at h
          cases h; rfl
        · rw [getFormat_none f (by omega) hc1 hc2] at h; cases h

/-! ## The trailer offset -/

theorem getFirstChunkOffset_V2 (f : File) (h : 8 ≤ f.data.length) :
    getFirstChunkOffset f .NeroV2
      = .ok (beInt64 (slice f.data (f.data.length - 8) 8),
             { data := f.data, pos := f.data.length - 8 + 8 }) := by
  rw [getFirstChunkOffset]
  simp only [if_true]
  rw [Seek_End_ok f 8 h]
  simp only []
  rw [binaryRead_ok _ 8 (by simp only []; omega)]

theorem getFirstChunkOffset_V2_short (f : File) (h : f.data.length < 8) :
    getFirstChunkOffset f .NeroV2 = .error .EINVAL := by
  rw [getFirstChunkOffset]
  simp only [if_true]
  rw [Seek_End_error f 8 h]

theorem getFirstChunkOffset_V1 (f : File) :
    getFirstChunkOffset f .NeroV1
      = .error (if f.data.length < 4 then .EINVAL else .ErrUnexpectedEOF) := by
  rw [getFirstChunkOffset]
  simp only [reduceCtorEq, if_false]
  by_cases h : f.data.length < 4
  · rw [Seek_End_error f 4 h]
    simp only [h, if_true]
  · rw [Seek_End_ok f 4 (by omega)]
    simp only []
    rw [binaryRead_error _ 8 (by omega) (by simp only []; omega)]
    have h1 : ¬ (f.data.length ≤ f.data.length - 4) := by omega
    simp only [h, h1, if_false]

theorem toSigned64_of_lt (n : Nat) (h : n < 2 ^ 63) : toSigned 64 n = (n : Int) := by
  have h1 : n % 2 ^ 64 = n := Nat.mod_eq_of_lt (by omega)
  simp only [toSigned, h1]
  rw [if_pos (by omega)]

theorem toSigned64_of_ge (n : Nat) (h : 2 ^ 63 ≤ n) (h64 : n < 2 ^ 64) :
    toSigned 64 n = (n : Int) - 2 ^ 64 := by
  have h1 : n % 2 ^ 64 = n := Nat.mod_eq_of_lt h64
  simp only [toSigned, h1]
  rw [if_neg (by omega)]
  norm_num

/-! ## The claims on the trailer -/

/-- C3, counterexample.  For `NeroV2` a trailer offset of eight `0xFF` bytes, whose
unsigned value is `2^64 - 1`, is returned as `-1`; for `NeroV1` a file whose last
four bytes hold the offset 5 makes `getFirstChunkOffset` fail. -/
theorem getFirstChunkOffset_not_unsigned :
    getFirstChunkOffset ⟨[255, 255, 255, 255, 255, 255, 255, 255], 0⟩ .NeroV2
        = .ok (-1, ⟨[255, 255, 255, 255, 255, 255, 255, 255], 8⟩)
      ∧ beUint (slice [255, 255, 255, 255, 255, 255, 255, 255] (8 - 8) 8) = 2 ^ 64 - 1
      ∧ getFirstChunkOffset ⟨[78, 69, 82, 79, 0, 0, 0, 5], 0⟩ .NeroV1 = .error .ErrUnexpectedEOF
      ∧ beUint (slice [78, 69, 82, 79, 0, 0, 0, 5] (8 - 4) 4) = 5 := by
  decide

/-- C3, amended.  For `NeroV2` and a file of at least eight bytes,
`getFirstChunkOffset` succeeds, leaves the file unchanged and returns the last
eight bytes read as a big-endian two's-complement signed 64-bit integer: the unsigned
value `u` of those bytes when `u < 2^63`, and `u - 2^64` otherwise. -/
theorem getFirstChunkOffset_NeroV2 (f : File) (h : 8 ≤ f.data.length) :
    ∃ g : File,
      getFirstChunkOffset f .NeroV2
          = .ok (beInt64 (slice f.data (f.data.length - 8) 8), g)
        ∧ g.data = f.data
        ∧ (beUint (slice f.data (f.data.length - 8) 8) < 2 ^ 63 →
            beInt64 (slice f.data (f.data.length - 8) 8)
              = (beUint (slice f.data (f.data.length - 8) 8) : Int))
        ∧ (2 ^ 63 ≤ beUint (slice f.data (f.data.length - 8) 8) →
            beInt64 (slice f.data (f.data.length - 8) 8)
              = (beUint (slice f.data (f.data.length - 8) 8) : Int) - 2 ^ 64) := by
  refine ⟨_, getFirstChunkOffset_V2 f h, rfl, ?_, ?_⟩
  · intro hlt
    exact toSigned64_of_lt _ hlt
  · intro hge
    have hlen : (slice f.data (f.data.length - 8) 8).length = 8 :=
      slice_length _ _ _ (by omega)
    have hlt := beUint_lt (slice f.data (f.data.length - 8) 8)
    rw [hlen] at hlt
    exact toSigned64_of_ge _ hge (by norm_num at hlt ⊢; exact hlt)

/-- Witness of C3 (amended): a 12-byte `NeroV2` trailer with offset 5. -/
theorem getFirstChunkOffset_NeroV2_witness :
    8 ≤ (File.mk [78, 69, 82, 53, 0, 0, 0, 0, 0, 0, 0, 5] 0).data.length
      ∧ ∃ g : File,
        getFirstChunkOffset ⟨[78, 69, 82, 53, 0, 0, 0, 0, 0, 0, 0, 5], 0⟩ .NeroV2
            = .ok (beInt64 (slice [78, 69, 82, 53, 0, 0, 0, 0, 0, 0, 0, 5] (12 - 8) 8), g)
          ∧ g.data = [78, 69, 82, 53, 0, 0, 0, 0, 0, 0, 0, 5] :=
  ⟨by decide,
    (getFirstChunkOffset_NeroV2 ⟨[78, 69, 82, 53, 0, 0, 0, 0, 0, 0, 0, 5], 0⟩ (by decide)).elim
      (fun g hg => ⟨g, hg.1, hg.2.1⟩)⟩

/-- C4, counterexample.  The last twelve bytes of this file are `NER5` followed by
an eight-byte offset, and the first four bytes of that offset spell `NERO`:
`getFormat` answers `NeroV1`. -/
theorem getFormat_NER5_shadowed :
    slice [78, 69, 82, 53, 78, 69, 82, 79, 0, 0, 0, 0] (12 - 12) 4 = NeroV2FormatCode
      ∧ getFormat ⟨[78, 69, 82, 53, 78, 69, 82, 79, 0, 0, 0, 0], 0⟩
          = .ok (.NeroV1, ⟨[78, 69, 82, 53, 78, 69, 82, 79, 0, 0, 0, 0], 8⟩) := by
  decide

/-- C4, amended.  On a file whose bytes `[EOF-8, EOF-4)` are `NERO`, `getFormat`
returns `NeroV1`; on a file whose bytes `[EOF-12, EOF-8)` are `NER5` and whose
bytes `[EOF-8, EOF-4)` (the upper half of the offset) are not `NERO`, it returns
`NeroV2`.  The file is left unchanged, the cursor behind the marker read last. -/
theorem getFormat_trailer (f : File) (h8 : 8 ≤ f.data.length) :
    (slice f.data (f.data.length - 8) 4 = NeroV1FormatCode →
        getFormat f = .ok (.NeroV1, { data := f.data, pos := f.data.length - 8 + 4 }))
      ∧ (12 ≤ f.data.length →
          slice f.data (f.data.length - 12) 4 = NeroV2FormatCode →
          slice f.data (f.data.length - 8) 4 ≠ NeroV1FormatCode →
          getFormat f = .ok (.NeroV2, { data := f.data, pos := f.data.length - 12 + 4 })) :=
  ⟨fun h1 => getFormat_V1 f h8 h1, fun h12 h2 h1 => getFormat_V2 f h12 h1 h2⟩

/-- Witness of C4 (amended): an 8-byte `NERO` trailer and a 12-byte `NER5` trailer,
both with offset 0. -/
theorem getFormat_trailer_witness :
    getFormat ⟨[78, 69, 82, 79, 0, 0, 0, 0], 0⟩
        = .ok (.NeroV1, ⟨[78, 69, 82, 79, 0, 0, 0, 0], 4⟩)
      ∧ getFormat ⟨[78, 69, 82, 53, 0, 0, 0, 0, 0, 0, 0, 0], 0⟩
        = .ok (.NeroV2, ⟨[78, 69, 82, 53, 0, 0, 0, 0, 0, 0, 0, 0], 4⟩) :=
  ⟨(getFormat_trailer ⟨[78, 69, 82, 79, 0, 0, 0, 0], 0⟩ (by decide)).1 (by decide),
   (getFormat_trailer ⟨[78, 69, 82, 53, 0, 0, 0, 0, 0, 0, 0, 0], 0⟩ (by decide)).2
      (by decide) (by decide) (by decide)⟩

/-- C5, counterexample.  In an 8-byte file of zeros neither marker matches (the
range `[EOF-12, EOF-8)` does not exist), and `getFormat` fails with the wrapped seek
error, not with `unable to determine format`; the empty file does the same. -/
theorem getFormat_short_file_seek_error :
    slice [0, 0, 0, 0, 0, 0, 0, 0] (8 - 8) 4 ≠ NeroV1FormatCode
      ∧ getFormat ⟨[0, 0, 0, 0, 0, 0, 0, 0], 0⟩ = .error (.wrap "seek error" .EINVAL)
      ∧ getFormat ⟨[], 0⟩ = .error (.wrap "seek error" .EINVAL)
      ∧ GoError.wrap "seek error" .EINVAL ≠ .errorf "unable to determine format" := by
  decide

/-- C5, amended.  `getFormat` fails with `unable to determine format` exactly on
the files of at least twelve bytes in which neither marker matches: bytes
`[EOF-8, EOF-4)` are not `NERO` and bytes `[EOF-12, EOF-8)` are not `NER5`. -/
theorem getFormat_unknown_iff (f : File) :
    getFormat f = .error (.errorf "unable to determine format")
      ↔ 12 ≤ f.data.length
        ∧ slice f.data (f.data.length - 8) 4 ≠ NeroV1FormatCode
        ∧ slice f.data (f.data.length - 12) 4 ≠ NeroV2FormatCode := by
  constructor
  · intro h
    by_cases h8 : f.data.length < 8
    · rw [getFormat_short f h8] at h; cases h
    · by_cases hc1 : slice f.data (f.data.length - 8) 4 = NeroV1FormatCode
      · rw [getFormat_V1 f (by omega) hc1] at h; cases h
      · by_cases h12 : f.data.length < 12
        · rw [getFormat_mid f (by omega) h12 hc1] at h; cases h
        · by_cases hc2 : slice f.data (f.data.length - 12) 4 = NeroV2FormatCode
          · rw [getFormat_V2 f (by omega) hc1 hc2] at h; cases h
          · exact ⟨by omega, hc1, hc2⟩
  · rintro ⟨h12, hc1, hc2⟩
    exact getFormat_none f h12 hc1 hc2

/-! ## Reading one chunk -/

theorem slice_slice (data : List Byte) (p n q m : Nat) (h : q + m ≤ n) :
    slice (slice data p n) q m = slice data (p + q) m := by
  simp only [slice, List.drop_take, List.take_take, List.drop_drop]
  have h1 : min m (n - q) = m := by omega
  rw [h1]

theorem Seek_Current_ok (f : File) (n : Nat) :
    f.Seek (n : Int) .SeekCurrent
      = .ok (((f.pos + n : Nat) : Int), { data := f.data, pos := f.pos + n }) := by
  have h2 : (f.pos : Int) + (n : Int) = ((f.pos + n : Nat) : Int) := by omega
  simp only [File.Seek, h2]
  rw [if_neg (by omega)]
  simp only [Int.toNat_ofNat]

theorem chunkTypeOf_tag (t : ChunkType) : chunkTypeOf t.tag = some t := by
  cases t <;> decide

theorem chunkTypeOf_eq_some (chunkID : List Byte) (t : ChunkType)
    (h : chunkTypeOf chunkID = some t) : chunkID = t.tag := by
  unfold chunkTypeOf at h
  split at h
  · cases h; assumption
  · split at h
    · cases h; assumption
    · split at h
      · cases h; assumption
      · split at h
        · cases h; assumption
        · split at h
          · cases h; assumption
          · cases h

theorem chunkTypeOf_eq_none (chunkID : List Byte) (h : ∀ t : ChunkType, chunkID ≠ t.tag) :
    chunkTypeOf chunkID = none := by
  cases hc : chunkTypeOf chunkID with
  | none => rfl
  | some t => exact absurd (chunkTypeOf_eq_some chunkID t hc) (h t)

theorem memSize_eq_encodedSize (t : ChunkType) : t.memSize = t.encodedSize := by
  cases t <;> decide

/-- The result of `readChunk` on a stream that holds a header with the tag of `t`
and the `t.encodedSize` bytes of the known layout after it. -/
theorem readChunk_known (f : File) (t : ChunkType)
    (htag : slice f.data f.pos 4 = t.tag)
    (hbody : f.pos + 8 + t.encodedSize ≤ f.data.length) :
    readChunk f
      = .ok (decodeChunk t (slice f.data (f.pos + 8) t.encodedSize),
             { data := f.data,
               pos := f.pos + 8 + max (beUint (slice f.data (f.pos + 4) 4)) t.encodedSize }) := by
  rw [readChunk, binaryRead_ok f 8 (by omega)]
  simp only [decodeChunkHeader]
  rw [slice_slice f.data f.pos 8 0 4 (by omega), slice_slice f.data f.pos 8 4 4 (by omega)]
  simp only [Nat.add_zero, htag, chunkTypeOf_tag]
  rw [binaryRead_ok _ t.encodedSize (by simp only []; omega)]
  simp only [memSize_eq_encodedSize]
  by_cases hs : t.encodedSize < beUint (slice f.data (f.pos + 4) 4)
  · have h1 : ((beUint (slice f.data (f.pos + 4) 4) : Nat) : Int) - ((t.encodedSize : Nat) : Int)
        = ((beUint (slice f.data (f.pos + 4) 4) - t.encodedSize : Nat) : Int) := by omega
    have h2 : (0 : Int) < ((beUint (slice f.data (f.pos + 4) 4) - t.encodedSize : Nat) : Int) := by
      omega
    have h3 : max (beUint (slice f.data (f.pos + 4) 4)) t.encodedSize
        = beUint (slice f.data (f.pos + 4) 4) := by omega
    rw [h1, if_pos h2, Seek_Current_ok, h3]
    simp only []
    have h4 : f.pos + 8 + t.encodedSize + (beUint (slice f.data (f.pos + 4) 4) - t.encodedSize)
        = f.pos + 8 + beUint (slice f.data (f.pos + 4) 4) := by omega
    rw [h4]
  · have h2 : ¬ ((beUint (slice f.data (f.pos + 4) 4) : Int) - (t.encodedSize : Int) > 0) := by
      omega
    have h3 : max (beUint (slice f.data (f.pos + 4) 4)) t.encodedSize = t.encodedSize := by omega
    rw [if_neg h2, h3]

/-- The result of `readChunk` on a stream that holds a header whose tag is none of
the five known ones. -/
theorem readChunk_unknown (f : File) (hhdr : f.pos + 8 ≤ f.data.length)
    (htag : chunkTypeOf (slice f.data f.pos 4) = none) :
    readChunk f = .error (.unknownChunkID (slice f.data f.pos 4)) := by
  rw [readChunk, binaryRead_ok f 8 hhdr]
  simp only [decodeChunkHeader]
  rw [slice_slice f.data f.pos 8 0 4 (by omega)]
  simp only [Nat.add_zero, htag]

/-! ## The claims on `readChunk` -/

/-- C6.  On a stream positioned at a header with a known tag whose declared body
size is at least the size of the known layout, with the bytes of the known layout
present, `readChunk` succeeds, returns the record decoded from the bytes right after
the header and leaves the stream `8 + declared size` bytes past the start of the
header; a second such chunk that starts there is decoded by the next call. -/
theorem readChunk_skips_slack (f : File) (t : ChunkType)
    (h : wellFormedAt f.data f.pos t) :
    readChunk f
        = .ok (decodeChunk t (slice f.data (f.pos + 8) t.encodedSize),
               { data := f.data, pos := f.pos + 8 + declaredSizeAt f.data f.pos })
      ∧ ∀ t2 : ChunkType, wellFormedAt f.data (f.pos + 8 + declaredSizeAt f.data f.pos) t2 →
          readChunk { data := f.data, pos := f.pos + 8 + declaredSizeAt f.data f.pos }
            = .ok (decodeChunk t2
                    (slice f.data (f.pos + 8 + declaredSizeAt f.data f.pos + 8) t2.encodedSize),
                   { data := f.data,
                     pos := f.pos + 8 + declaredSizeAt f.data f.pos + 8
                       + declaredSizeAt f.data (f.pos + 8 + declaredSizeAt f.data f.pos) }) := by
  constructor
  · obtain ⟨⟨htag, hbody⟩, hsize⟩ := h
    rw [readChunk_known f t htag hbody]
    have hmax : max (beUint (slice f.data (f.pos + 4) 4)) t.encodedSize
        = declaredSizeAt f.data f.pos := by
      unfold declaredSizeAt at hsize ⊢; omega
    rw [hmax]
  · rintro t2 ⟨⟨htag, hbody⟩, hsize⟩
    rw [readChunk_known _ t2 htag hbody]
    have hmax : max (beUint (slice f.data (f.pos + 8 + declaredSizeAt f.data f.pos + 4) 4))
          t2.encodedSize
        = declaredSizeAt f.data (f.pos + 8 + declaredSizeAt f.data f.pos) := by
      unfold declaredSizeAt at hsize ⊢; omega
    simp only [hmax]

/-- Witness of C6: a `SINF` chunk with declared size 6 (two bytes of slack) followed
by an `MTYP` chunk. -/
theorem readChunk_skips_slack_witness :
    readChunk ⟨[83, 73, 78, 70, 0, 0, 0, 6, 0, 0, 0, 5, 9, 9,
                77, 84, 89, 80, 0, 0, 0, 4, 0, 0, 0, 1], 0⟩
        = .ok (.SINF ⟨5⟩, ⟨[83, 73, 78, 70, 0, 0, 0, 6, 0, 0, 0, 5, 9, 9,
                77, 84, 89, 80, 0, 0, 0, 4, 0, 0, 0, 1], 14⟩)
      ∧ readChunk ⟨[83, 73, 78, 70, 0, 0, 0, 6, 0, 0, 0, 5, 9, 9,
                77, 84, 89, 80, 0, 0, 0, 4, 0, 0, 0, 1], 14⟩
        = .ok (.MTYP ⟨1⟩, ⟨[83, 73, 78, 70, 0, 0, 0, 6, 0, 0, 0, 5, 9, 9,
                77, 84, 89, 80, 0, 0, 0, 4, 0, 0, 0, 1], 26⟩) :=
  ⟨(readChunk_skips_slack ⟨[83, 73, 78, 70, 0, 0, 0, 6, 0, 0, 0, 5, 9, 9,
      77, 84, 89, 80, 0, 0, 0, 4, 0, 0, 0, 1], 0⟩ .SINF (by decide)).1,
   (readChunk_skips_slack ⟨[83, 73, 78, 70, 0, 0, 0, 6, 0, 0, 0, 5, 9, 9,
      77, 84, 89, 80, 0, 0, 0, 4, 0, 0, 0, 1], 0⟩ .SINF (by decide)).2 .MTYP (by decide)⟩

/-- C7, counterexample.  A `SINF` header that declares a body of 0 bytes, less than
the 4 bytes of the known layout: `readChunk` returns the decoded record. -/
theorem readChunk_negative_slack_accepted :
    declaredSizeAt [83, 73, 78, 70, 0, 0, 0, 0, 0, 0, 0, 5] 0 < ChunkType.encodedSize .SINF
      ∧ readChunk ⟨[83, 73, 78, 70, 0, 0, 0, 0, 0, 0, 0, 5], 0⟩
          = .ok (.SINF ⟨5⟩, ⟨[83, 73, 78, 70, 0, 0, 0, 0, 0, 0, 0, 5], 12⟩) := by
  decide

/-- C7, amended.  On a header with a known tag whose declared body size is smaller
than the size of the known layout, `readChunk` does not look at the deficit: with
the bytes of the known layout present it succeeds, returns the record decoded from
them and leaves the stream `8 + layout size` bytes past the start of the header. -/
theorem readChunk_negative_slack (f : File) (t : ChunkType)
    (h : chunkAt f.data f.pos t)
    (hsize : declaredSizeAt f.data f.pos < t.encodedSize) :
    readChunk f
      = .ok (decodeChunk t (slice f.data (f.pos + 8) t.encodedSize),
             { data := f.data, pos := f.pos + 8 + t.encodedSize }) := by
  obtain ⟨htag, hbody⟩ := h
  rw [readChunk_known f t htag hbody]
  have hmax : max (beUint (slice f.data (f.pos + 4) 4)) t.encodedSize = t.encodedSize := by
    unfold declaredSizeAt at hsize; omega
  rw [hmax]

/-- Witness of C7 (amended): a `CUEX` header that declares 3 bytes for the 8-byte
layout. -/
theorem readChunk_negative_slack_witness :
    readChunk ⟨[67, 85, 69, 88, 0, 0, 0, 3, 1, 2, 3, 0, 255, 255, 255, 254], 0⟩
      = .ok (.CUEX ⟨1, 2, 3, 0, -2⟩,
             ⟨[67, 85, 69, 88, 0, 0, 0, 3, 1, 2, 3, 0, 255, 255, 255, 254], 16⟩) :=
  readChunk_negative_slack ⟨[67, 85, 69, 88, 0, 0, 0, 3, 1, 2, 3, 0, 255, 255, 255, 254], 0⟩
    .CUEX (by decide) (by decide)

/-! ## The loop of `convert` -/

/-- One iteration of the loop on a `CUEX`, `SINF` or `MTYP` chunk. -/
theorem chunkLoop_ignored (data : List Byte) (p fuel : Nat) (fs : FileSystem)
    (h : ignoredAt data p) :
    chunkLoop (fuel + 1) ⟨data, p⟩ fs
      = chunkLoop fuel ⟨data, p + 8 + declaredSizeAt data p⟩ fs := by
  have step : ∀ t : ChunkType, wellFormedAt data p t →
      readChunk ⟨data, p⟩
        = .ok (decodeChunk t (slice data (p + 8) t.encodedSize),
               ⟨data, p + 8 + declaredSizeAt data p⟩) := by
    rintro t ⟨⟨htag, hbody⟩, hsize⟩
    rw [readChunk_known ⟨data, p⟩ t htag hbody]
    have hmax : max (beUint (slice data (p + 4) 4)) t.encodedSize = declaredSizeAt data p := by
      unfold declaredSizeAt at hsize ⊢; omega
    simp only [hmax]
  rcases h with h | h | h
  · rw [chunkLoop, step _ h]; rfl
  · rw [chunkLoop, step _ h]; rfl
  · rw [chunkLoop, step _ h]; rfl

/-- The loop passes over a run of `n` ignored chunks in `n` iterations. -/
theorem chunkLoop_ignoredRun (data : List Byte) (fs : FileSystem) (n : Nat) :
    ∀ (p q fuel : Nat), ignoredRun data n p q →
      chunkLoop (n + fuel) ⟨data, p⟩ fs = chunkLoop fuel ⟨data, q⟩ fs := by
  induction n with
  | zero =>
    intro p q fuel h
    simp only [ignoredRun] at h
    subst h
    simp only [Nat.zero_add]
  | succ n ih =>
    intro p q fuel h
    simp only [ignoredRun] at h
    have e : n + 1 + fuel = (n + fuel) + 1 := by omega
    rw [e, chunkLoop_ignored data p (n + fuel) fs h.1]
    exact ih _ q fuel h.2

/-- One iteration of the loop on a `DAOX` chunk. -/
theorem chunkLoop_DAOX (data : List Byte) (p fuel : Nat) (fs : FileSystem)
    (h : chunkAt data p .DAOX) :
    chunkLoop (fuel + 1) ⟨data, p⟩ fs
      = some (extract
          ⟨data, p + 8 + max (declaredSizeAt data p) (ChunkType.encodedSize .DAOX)⟩
          (decodeDAOX (slice data (p + 8) (ChunkType.encodedSize .DAOX))) fs) := by
  rw [chunkLoop, readChunk_known ⟨data, p⟩ .DAOX h.1 h.2]
  rfl

/-- One iteration of the loop on an `END!` chunk. -/
theorem chunkLoop_END (data : List Byte) (p fuel : Nat) (fs : FileSystem)
    (h : chunkAt data p .END) :
    chunkLoop (fuel + 1) ⟨data, p⟩ fs
      = some { err := some (.wrapNil "image format not supported"), target := fs.target } := by
  rw [chunkLoop, readChunk_known ⟨data, p⟩ .END h.1 h.2]
  rfl

/-- One iteration of the loop on a chunk with an unknown tag. -/
theorem chunkLoop_unknown (data : List Byte) (p fuel : Nat) (fs : FileSystem)
    (hhdr : p + 8 ≤ data.length) (htag : chunkTypeOf (slice data p 4) = none) :
    chunkLoop (fuel + 1) ⟨data, p⟩ fs
      = some { err := some (.wrap "failed reading source file"
                              (.unknownChunkID (slice data p 4))),
               target := fs.target } := by
  rw [chunkLoop, readChunk_unknown ⟨data, p⟩ hhdr htag]

/-- The cursor the source file has when `extract` starts does not matter. -/
theorem extract_pos (data : List Byte) (p q : Nat) (daox : DAOX) (fs : FileSystem) :
    extract ⟨data, p⟩ daox fs = extract ⟨data, q⟩ daox fs := by
  simp only [extract, File.Seek]

/-- No wrap-around for a difference that fits an `int64`. -/
theorem wrapInt64_of_range (i : Int) (h1 : -2 ^ 63 ≤ i) (h2 : i < 2 ^ 63) :
    wrapInt64 i = i := by
  unfold wrapInt64
  by_cases h : 0 ≤ i
  · obtain ⟨n, hn⟩ := Int.eq_ofNat_of_zero_le h
    have hm : i % 2 ^ 64 = (n : Int) := by omega
    rw [hm, Int.toNat_ofNat, toSigned64_of_lt n (by omega), hn]
  · obtain ⟨n, hn⟩ := Int.eq_ofNat_of_zero_le (show 0 ≤ i + 2 ^ 64 by omega)
    have hm : i % 2 ^ 64 = (n : Int) := by omega
    rw [hm, Int.toNat_ofNat, toSigned64_of_ge n (by omega) (by omega)]
    omega

/-- A difference below `-2^63` wraps around to a positive count. -/
theorem wrapInt64_of_low (i : Int) (h1 : -2 ^ 64 < i) (h2 : i < -2 ^ 63) :
    wrapInt64 i = i + 2 ^ 64 := by
  unfold wrapInt64
  obtain ⟨n, hn⟩ := Int.eq_ofNat_of_zero_le (show 0 ≤ i + 2 ^ 64 by omega)
  have hm : i % 2 ^ 64 = (n : Int) := by omega
  rw [hm, Int.toNat_ofNat, toSigned64_of_lt n (by omega)]
  omega

/-- A decoded 64-bit field is an `int64`. -/
theorem beInt64_range (bs : List Byte) : -2 ^ 63 ≤ beInt64 bs ∧ beInt64 bs < 2 ^ 63 := by
  have hlt : beUint bs % 2 ^ 64 < 2 ^ 64 := Nat.mod_lt _ (by norm_num)
  unfold beInt64 toSigned
  split
  · next h => constructor <;> omega
  · next h => constructor <;> omega

/-- The three ways the copy of `extract` ends, by the count handed to `io.CopyN`. -/
theorem extract_of_count (data : List Byte) (p i : Nat) (daox : DAOX) (fs : FileSystem)
    (hc : fs.targetCreatable = true) (hi : daox.Index1 = (i : Int)) :
    (wrapInt64 (daox.EndOfTrack - daox.Index1) ≤ 0 →
        extract ⟨data, p⟩ daox fs = { err := none, target := some [] })
      ∧ (∀ m : Nat, wrapInt64 (daox.EndOfTrack - daox.Index1) = (m : Int) → 0 < m →
          i + m ≤ data.length →
          extract ⟨data, p⟩ daox fs = { err := none, target := some (slice data i m) })
      ∧ (∀ m : Nat, wrapInt64 (daox.EndOfTrack - daox.Index1) = (m : Int) → 0 < m →
          data.length < i + m →
          extract ⟨data, p⟩ daox fs
            = { err := some (.wrap "copy error" .EOF), target := some (slice data i m) }) := by
  refine ⟨?_, ?_, ?_⟩
  · intro hn
    rw [extract, hi, Seek_Start_ok]
    simp only [hc, Bool.true_eq_false, if_false, CopyN]
    rw [← hi, if_pos hn]
  · intro m hm hpos hfit
    have hn : ¬ ((m : Int) ≤ 0) := by omega
    have hlen : (slice data i m).length = m := slice_length _ _ _ hfit
    rw [extract, hm, hi, Seek_Start_ok]
    simp only [hc, Bool.true_eq_false, if_false, CopyN]
    rw [if_neg hn]
    simp only [Int.toNat_ofNat, hlen, if_true]
  · intro m hm hpos hshort
    have hn : ¬ ((m : Int) ≤ 0) := by omega
    have hlen : ¬ (((slice data i m).length : Int) = (m : Int)) := by
      simp only [slice, List.length_take, List.length_drop]
      omega
    rw [extract, hm, hi, Seek_Start_ok]
    simp only [hc, Bool.true_eq_false, if_false, CopyN]
    rw [if_neg hn]
    simp only [Int.toNat_ofNat, hlen, if_false]

/-- The extraction of a range that lies in the file. -/
theorem extract_ok (data : List Byte) (p : Nat) (daox : DAOX) (fs : FileSystem)
    (hc : fs.targetCreatable = true)
    (h0 : 0 ≤ daox.Index1) (h1 : daox.Index1 ≤ daox.EndOfTrack)
    (h2 : daox.EndOfTrack ≤ (data.length : Int)) (h3 : daox.EndOfTrack < 2 ^ 63) :
    extract ⟨data, p⟩ daox fs
      = { err := none
          target := some (slice data daox.Index1.toNat (daox.EndOfTrack - daox.Index1).toNat) } := by
  obtain ⟨i, hi⟩ := Int.eq_ofNat_of_zero_le h0
  obtain ⟨e, he⟩ := Int.eq_ofNat_of_zero_le (le_trans h0 h1)
  have hw : wrapInt64 (daox.EndOfTrack - daox.Index1) = ((e - i : Nat) : Int) := by
    rw [wrapInt64_of_range _ (by omega) (by omega)]
    omega
  have hsub : daox.EndOfTrack - daox.Index1 = ((e - i : Nat) : Int) := by omega
  obtain ⟨hzero, hfull, _⟩ := extract_of_count data p i daox fs hc hi
  rw [hsub, hi]
  simp only [Int.toNat_ofNat]
  by_cases hz : e - i = 0
  · rw [hzero (by rw [hw]; omega), hz]
    simp only [slice, List.take_zero]
  · exact hfull (e - i) hw (by omega) (by omega)

/-! ## The driver up to the loop -/

/-- On a `NeroV2` container `convert` enters its loop at the trailer offset. -/
theorem convert_NeroV2_loop (fs : FileSystem) (data : List Byte) (off fuel : Nat)
    (hsrc : fs.source = some data) (ht : NeroV2TrailerAt data off) :
    convert fuel fs = chunkLoop fuel ⟨data, off⟩ fs := by
  obtain ⟨h12, hm2, hm1, hoff⟩ := ht
  rw [convert, hsrc]
  simp only []
  rw [getFormat_V2 ⟨data, 0⟩ h12 hm1 hm2]
  simp only []
  rw [getFirstChunkOffset_V2 _ (by simp only []; omega)]
  simp only [hoff]
  rw [Seek_Start_ok]

/-- On a container that `getFormat` classifies as `NeroV1`, `convert` fails when it
reads the trailer offset. -/
theorem convert_NeroV1_fails (fs : FileSystem) (data : List Byte) (fuel : Nat)
    (hsrc : fs.source = some data) (h8 : 8 ≤ data.length)
    (hm1 : slice data (data.length - 8) 4 = NeroV1FormatCode) :
    convert fuel fs
      = some { err := some (.wrap "failed parsing source file" .ErrUnexpectedEOF),
               target := fs.target } := by
  rw [convert, hsrc]
  simp only []
  rw [getFormat_V1 ⟨data, 0⟩ h8 hm1]
  simp only []
  rw [getFirstChunkOffset_V1]
  have h4 : ¬ (data.length < 4) := by omega
  simp only [h4, if_false]

/-- The count of the copy wraps around as `int64` does: with `Index1 = 1` and
`EndOfTrack = -2^63` the count is `2^63 - 1`, the copy takes the 83 bytes after
position 1 of this 84-byte source and ends with `io.EOF`. -/
theorem convert_count_wraps :
    wrapInt64 (-2 ^ 63 - 1) = 2 ^ 63 - 1
      ∧ convert 1
        ⟨some ([68, 65, 79, 88, 0, 0, 0, 64] ++ List.replicate 48 0
            ++ [0, 0, 0, 0, 0, 0, 0, 1, 128, 0, 0, 0, 0, 0, 0, 0]
            ++ [78, 69, 82, 53, 0, 0, 0, 0, 0, 0, 0, 0]), none, true⟩
        = some ⟨some (.wrap "copy error" .EOF),
            some (slice ([68, 65, 79, 88, 0, 0, 0, 64] ++ List.replicate 48 0
              ++ [0, 0, 0, 0, 0, 0, 0, 1, 128, 0, 0, 0, 0, 0, 0, 0]
              ++ [78, 69, 82, 53, 0, 0, 0, 0, 0, 0, 0, 0]) 1 83)⟩ := by
  decide

/-! ## Files written as concatenations -/

theorem slice_append_right (a b : List Byte) (p n : Nat) (h : a.length ≤ p) :
    slice (a ++ b) p n = slice b (p - a.length) n := by
  simp only [slice, List.drop_append_eq_append_drop, List.drop_eq_nil_of_le h, List.nil_append]

theorem slice_append_mid (a b c : List Byte) :
    slice (a ++ b ++ c) a.length b.length = b := by
  simp [slice, List.append_assoc]

theorem slice_split (data : List Byte) (p n m : Nat) :
    slice data p (n + m) = slice data p n ++ slice data (p + n) m := by
  simp only [slice, List.take_add, List.drop_drop]

theorem beUint_foldl_append (a b : List Byte) (acc : Nat) :
    (a ++ b).foldl (fun x y => x * 256 + y.toNat) acc
      = b.foldl (fun x y => x * 256 + y.toNat) (a.foldl (fun x y => x * 256 + y.toNat) acc) := by
  rw [List.foldl_append]

theorem beUint_foldl_acc (b : List Byte) (acc : Nat) :
    b.foldl (fun x y => x * 256 + y.toNat) acc
      = acc * 256 ^ b.length + b.foldl (fun x y => x * 256 + y.toNat) 0 := by
  induction b generalizing acc with
  | nil => simp
  | cons y b ih =>
    simp only [List.foldl_cons, List.length_cons]
    rw [ih (acc * 256 + y.toNat), ih (0 * 256 + y.toNat)]
    ring

theorem beUint_append (a b : List Byte) :
    beUint (a ++ b) = beUint a * 256 ^ b.length + beUint b := by
  simp only [beUint]
  rw [beUint_foldl_append, beUint_foldl_acc]

/-- In a file below `2^62` bytes a `NER5` trailer whose offset points into the file
is a `NeroV2` trailer: the upper half of such an offset cannot spell `NERO`. -/
theorem NeroV2TrailerAt_of_small (data : List Byte) (off : Nat)
    (hsize : data.length < 2 ^ 62) (h12 : 12 ≤ data.length)
    (hmark : slice data (data.length - 12) 4 = NeroV2FormatCode)
    (hoff : beUint (slice data (data.length - 8) 8) = off) (hle : off ≤ data.length) :
    NeroV2TrailerAt data off := by
  refine ⟨h12, hmark, ?_, ?_⟩
  · intro hm1
    have hs := slice_split data (data.length - 8) 4 4
    have h4 : (slice data (data.length - 8 + 4) 4).length = 4 := slice_length _ _ _ (by omega)
    have hb : beUint (slice data (data.length - 8) 8)
        = beUint NeroV1FormatCode * 256 ^ 4 + beUint (slice data (data.length - 8 + 4) 4) := by
      have e : (4 + 4 : Nat) = 8 := rfl
      rw [← e, hs, beUint_append, hm1, h4]
    have hv : beUint NeroV1FormatCode = 1313165903 := by decide
    rw [hv, hoff] at hb
    norm_num at hb hsize
    omega
  · have hlt : beUint (slice data (data.length - 8) 8) < 2 ^ 63 := by
      rw [hoff]
      norm_num at hsize ⊢
      omega
    rw [beInt64, toSigned64_of_lt _ hlt, hoff]

/-! ## The end-to-end claims -/

/-- C1.  For a source file (below `2^62` bytes) that ends with `NER5` and an
eight-byte big-endian offset `off`, where at `off` stands a `DAOX` chunk with
`0 ≤ Index1 ≤ EndOfTrack ≤ off`, and a target that can be created, `convert`
returns nil and the target holds exactly the source bytes `[Index1, EndOfTrack)`:
`EndOfTrack - Index1` bytes, nothing before or after. -/
theorem convert_NeroV2_extracts (fs : FileSystem) (data : List Byte) (fuel off : Nat)
    (daox : DAOX)
    (hsrc : fs.source = some data) (hcreate : fs.targetCreatable = true)
    (hsize : data.length < 2 ^ 62) (h12 : 12 ≤ data.length)
    (hmark : slice data (data.length - 12) 4 = NeroV2FormatCode)
    (hoff : beUint (slice data (data.length - 8) 8) = off)
    (hchunk : chunkAt data off .DAOX)
    (hdaox : decodeDAOX (slice data (off + 8) 64) = daox)
    (h0 : 0 ≤ daox.Index1) (h1 : daox.Index1 ≤ daox.EndOfTrack)
    (h2 : daox.EndOfTrack ≤ (off : Int)) (hfuel : 1 ≤ fuel) :
    convert fuel fs
        = some { err := none
                 target := some (slice data daox.Index1.toNat
                                  (daox.EndOfTrack - daox.Index1).toNat) }
      ∧ (slice data daox.Index1.toNat (daox.EndOfTrack - daox.Index1).toNat).length
          = (daox.EndOfTrack - daox.Index1).toNat := by
  have hlen : off + 8 + 64 ≤ data.length := hchunk.2
  have ht : NeroV2TrailerAt data off :=
    NeroV2TrailerAt_of_small data off hsize h12 hmark hoff (by omega)
  have h3 : daox.EndOfTrack ≤ (data.length : Int) := by omega
  obtain ⟨k, hk⟩ : ∃ k, fuel = k + 1 := ⟨fuel - 1, by omega⟩
  constructor
  · rw [convert_NeroV2_loop fs data off fuel hsrc ht, hk, chunkLoop_DAOX data off k fs hchunk]
    have e : ChunkType.encodedSize .DAOX = 64 := by decide
    rw [e, hdaox, extract_ok data _ daox fs hcreate h0 h1 h3 (by omega)]
  · apply slice_length
    omega

/-- Witness of C1: the 4096 bytes before the chunk stream are 2048 zero bytes and
2048 bytes of filler, the `DAOX` chunk at 4096 gives the range `[2048, 4096)`, the
trailer is `NER5` with offset 4096; the target receives the filler. -/
theorem convert_NeroV2_extracts_witness :
    convert 1
        { source := some (List.replicate 2048 0 ++ List.replicate 2048 7
            ++ ([68, 65, 79, 88, 0, 0, 0, 64] ++ List.replicate 40 0
                ++ [0, 0, 0, 0, 0, 0, 8, 0, 0, 0, 0, 0, 0, 0, 8, 0, 0, 0, 0, 0, 0, 0, 16, 0]
                ++ [78, 69, 82, 53, 0, 0, 0, 0, 0, 0, 16, 0]))
          target := none
          targetCreatable := true }
      = some { err := none, target := some (List.replicate 2048 7) } := by
  have hl : (List.replicate 2048 (0 : Byte) ++ List.replicate 2048 7
            ++ ([68, 65, 79, 88, 0, 0, 0, 64] ++ List.replicate 40 0
                ++ [0, 0, 0, 0, 0, 0, 8, 0, 0, 0, 0, 0, 0, 0, 8, 0, 0, 0, 0, 0, 0, 0, 16, 0]
                ++ [78, 69, 82, 53, 0, 0, 0, 0, 0, 0, 16, 0])).length = 4180 := by
    simp only [List.length_append, List.length_replicate, List.length_cons, List.length_nil]
  have hp : (List.replicate 2048 (0 : Byte) ++ List.replicate 2048 7).length = 4096 := by
    simp only [List.length_append, List.length_replicate]
  have h := convert_NeroV2_extracts
    { source := some (List.replicate 2048 0 ++ List.replicate 2048 7
            ++ ([68, 65, 79, 88, 0, 0, 0, 64] ++ List.replicate 40 0
                ++ [0, 0, 0, 0, 0, 0, 8, 0, 0, 0, 0, 0, 0, 0, 8, 0, 0, 0, 0, 0, 0, 0, 16, 0]
                ++ [78, 69, 82, 53, 0, 0, 0, 0, 0, 0, 16, 0]))
      target := none
      targetCreatable := true }
    _ 1 4096
    { Size := 0, Upc := List.replicate 13 0, Padding := 0, TocType := 0, FirstTrack := 0,
      LastTrack := 0, Isrc := List.replicate 12 0, SectorSize := 0, Mode := 0, Uknown := 0,
      Index0 := 2048, Index1 := 2048, EndOfTrack := 4096 }
    rfl rfl
    (by rw [hl]; norm_num)
    (by rw [hl]; norm_num)
    (by rw [hl, slice_append_right _ _ _ _ (by rw [hp]; norm_num), hp]; decide)
    (by rw [hl, slice_append_right _ _ _ _ (by rw [hp]; norm_num), hp]; decide)
    (by
      refine ⟨?_, ?_⟩
      · rw [slice_append_right _ _ _ _ (by rw [hp]), hp]; decide
      · rw [hl]; decide)
    (by rw [slice_append_right _ _ _ _ (by rw [hp]; norm_num), hp]; decide)
    (by decide) (by decide) (by decide) (le_refl 1)
  have hs : slice (List.replicate 2048 (0 : Byte) ++ List.replicate 2048 7
            ++ ([68, 65, 79, 88, 0, 0, 0, 64] ++ List.replicate 40 0
                ++ [0, 0, 0, 0, 0, 0, 8, 0, 0, 0, 0, 0, 0, 0, 8, 0, 0, 0, 0, 0, 0, 0, 16, 0]
                ++ [78, 69, 82, 53, 0, 0, 0, 0, 0, 0, 16, 0])) 2048 2048
      = List.replicate 2048 7 := by
    have := slice_append_mid (List.replicate 2048 (0 : Byte)) (List.replicate 2048 7)
      ([68, 65, 79, 88, 0, 0, 0, 64] ++ List.replicate 40 0
                ++ [0, 0, 0, 0, 0, 0, 8, 0, 0, 0, 0, 0, 0, 0, 8, 0, 0, 0, 0, 0, 0, 0, 16, 0]
                ++ [78, 69, 82, 53, 0, 0, 0, 0, 0, 0, 16, 0])
    simp only [List.length_replicate] at this
    exact this
  have e1 : (Int.toNat (2048 : Int)) = 2048 := rfl
  have e2 : (Int.toNat ((4096 : Int) - 2048)) = 2048 := rfl
  rw [h.1]
  simp only [e1, e2, hs]

/-- C2, the code at the failing input.  The minimal older-variant container of the
scenario (2048 zero bytes, 2048 bytes of filler, a `DAOX` chunk at 4096 with the
range `[2048, 4096)`, the trailer `NERO` with the four-byte offset 4096):
`convert` fails while reading the trailer offset and the target is not created. -/
theorem convert_NeroV1_scenario_fails :
    convert 1
        { source := some (List.replicate 2048 0 ++ List.replicate 2048 7
            ++ ([68, 65, 79, 88, 0, 0, 0, 64] ++ List.replicate 40 0
                ++ [0, 0, 0, 0, 0, 0, 8, 0, 0, 0, 0, 0, 0, 0, 8, 0, 0, 0, 0, 0, 0, 0, 16, 0]
                ++ [78, 69, 82, 79, 0, 0, 16, 0]))
          target := none
          targetCreatable := true }
      = some { err := some (.wrap "failed parsing source file" .ErrUnexpectedEOF)
               target := none } := by
  have hl : (List.replicate 2048 (0 : Byte) ++ List.replicate 2048 7
            ++ ([68, 65, 79, 88, 0, 0, 0, 64] ++ List.replicate 40 0
                ++ [0, 0, 0, 0, 0, 0, 8, 0, 0, 0, 0, 0, 0, 0, 8, 0, 0, 0, 0, 0, 0, 0, 16, 0]
                ++ [78, 69, 82, 79, 0, 0, 16, 0])).length = 4176 := by
    simp only [List.length_append, List.length_replicate, List.length_cons, List.length_nil]
  have hp : (List.replicate 2048 (0 : Byte) ++ List.replicate 2048 7).length = 4096 := by
    simp only [List.length_append, List.length_replicate]
  exact convert_NeroV1_fails _ _ 1 rfl (by rw [hl]; norm_num)
    (by rw [hl, slice_append_right _ _ _ _ (by rw [hp]; norm_num), hp]; decide)

/-- C8.  On a stream with at least 8 bytes left whose next four bytes are none of
the five known tags, `readChunk` returns the unknown-tag error and no chunk,
whatever the declared size; and when `n` well-formed `CUEX` / `SINF` / `MTYP` chunks
lead from `p` to that header, the loop of `convert` started at `p` (and `convert`
itself on a `NeroV2` container whose trailer offset is `p`) fails with that error and
leaves the target as it was. -/
theorem readChunk_unknown_tag_fails (f : File)
    (hhdr : f.pos + 8 ≤ f.data.length)
    (htag : ∀ t : ChunkType, slice f.data f.pos 4 ≠ t.tag) :
    readChunk f = .error (.unknownChunkID (slice f.data f.pos 4))
      ∧ ∀ (fs : FileSystem) (n p fuel : Nat), ignoredRun f.data n p f.pos → n + 1 ≤ fuel →
          chunkLoop fuel ⟨f.data, p⟩ fs
              = some { err := some (.wrap "failed reading source file"
                                      (.unknownChunkID (slice f.data f.pos 4)))
                       target := fs.target }
            ∧ (fs.source = some f.data → NeroV2TrailerAt f.data p →
                convert fuel fs
                  = some { err := some (.wrap "failed reading source file"
                                          (.unknownChunkID (slice f.data f.pos 4)))
                           target := fs.target }) := by
  have hnone := chunkTypeOf_eq_none _ htag
  refine ⟨readChunk_unknown f hhdr hnone, ?_⟩
  intro fs n p fuel hrun hfuel
  obtain ⟨k, hk⟩ : ∃ k, fuel = n + (k + 1) := ⟨fuel - n - 1, by omega⟩
  have hloop : chunkLoop fuel ⟨f.data, p⟩ fs
      = some { err := some (.wrap "failed reading source file"
                              (.unknownChunkID (slice f.data f.pos 4)))
               target := fs.target } := by
    rw [hk, chunkLoop_ignoredRun f.data fs n p f.pos (k + 1) hrun,
      chunkLoop_unknown f.data f.pos k fs hhdr hnone]
  refine ⟨hloop, ?_⟩
  intro hsrc ht
  rw [convert_NeroV2_loop fs f.data p fuel hsrc ht, hloop]

/-- Witness of C8: a `SINF` chunk, then a chunk tagged `ABCD`, then the `NER5`
trailer with offset 0. -/
theorem readChunk_unknown_tag_fails_witness :
    readChunk ⟨[83, 73, 78, 70, 0, 0, 0, 4, 0, 0, 0, 1, 65, 66, 67, 68, 0, 0, 0, 0,
                78, 69, 82, 53, 0, 0, 0, 0, 0, 0, 0, 0], 12⟩
        = .error (.unknownChunkID [65, 66, 67, 68])
      ∧ convert 2 ⟨some [83, 73, 78, 70, 0, 0, 0, 4, 0, 0, 0, 1, 65, 66, 67, 68, 0, 0, 0, 0,
                78, 69, 82, 53, 0, 0, 0, 0, 0, 0, 0, 0], some [1, 2, 3], true⟩
        = some ⟨some (.wrap "failed reading source file" (.unknownChunkID [65, 66, 67, 68])),
                some [1, 2, 3]⟩ :=
  ⟨(readChunk_unknown_tag_fails ⟨[83, 73, 78, 70, 0, 0, 0, 4, 0, 0, 0, 1, 65, 66, 67, 68,
      0, 0, 0, 0, 78, 69, 82, 53, 0, 0, 0, 0, 0, 0, 0, 0], 12⟩ (by decide)
      (by intro t; cases t <;> decide)).1,
   ((readChunk_unknown_tag_fails ⟨[83, 73, 78, 70, 0, 0, 0, 4, 0, 0, 0, 1, 65, 66, 67, 68,
      0, 0, 0, 0, 78, 69, 82, 53, 0, 0, 0, 0, 0, 0, 0, 0], 12⟩ (by decide)
      (by intro t; cases t <;> decide)).2
      ⟨some [83, 73, 78, 70, 0, 0, 0, 4, 0, 0, 0, 1, 65, 66, 67, 68, 0, 0, 0, 0,
                78, 69, 82, 53, 0, 0, 0, 0, 0, 0, 0, 0], some [1, 2, 3], true⟩
      1 0 2 (by decide) (by decide)).2 rfl (by decide)⟩

/-- C9.  When `n ≥ 0` well-formed `CUEX` / `SINF` / `MTYP` chunks lead from `p` to a
`DAOX` chunk at `q`, the loop of `convert` started at `p` passes over the `n`
chunks and extracts with the record decoded from the 64 bytes after the header at
`q`, hence with its `(Index1, EndOfTrack)` as stored; nothing behind that chunk
enters the result.  The same holds for `convert` on a `NeroV2` container whose
trailer offset is `p`.  With `I` and `E` the signed 64-bit values stored at body
bytes `[48, 56)` and `[56, 64)` and a target that can be created: for
`0 ≤ I ≤ E ≤ source length` the run returns nil and the target is the source bytes
`[I, E)`; for `I < 0` it fails in the seek and leaves the target empty. -/
theorem chunkLoop_finds_DAOX (data : List Byte) (fs : FileSystem) (n p q fuel : Nat)
    (hrun : ignoredRun data n p q) (hdaox : chunkAt data q .DAOX) (hfuel : n + 1 ≤ fuel) :
    chunkLoop fuel ⟨data, p⟩ fs
        = some (extract ⟨data, 0⟩ (decodeDAOX (slice data (q + 8) 64)) fs)
      ∧ (fs.source = some data → NeroV2TrailerAt data p →
          convert fuel fs = some (extract ⟨data, 0⟩ (decodeDAOX (slice data (q + 8) 64)) fs))
      ∧ (decodeDAOX (slice data (q + 8) 64)).Index1 = beInt64 (slice data (q + 8 + 48) 8)
      ∧ (decodeDAOX (slice data (q + 8) 64)).EndOfTrack = beInt64 (slice data (q + 8 + 56) 8)
      ∧ (fs.targetCreatable = true →
          0 ≤ beInt64 (slice data (q + 8 + 48) 8) →
          beInt64 (slice data (q + 8 + 48) 8) ≤ beInt64 (slice data (q + 8 + 56) 8) →
          beInt64 (slice data (q + 8 + 56) 8) ≤ (data.length : Int) →
          chunkLoop fuel ⟨data, p⟩ fs
            = some { err := none
                     target := some (slice data (beInt64 (slice data (q + 8 + 48) 8)).toNat
                       (beInt64 (slice data (q + 8 + 56) 8)
                         - beInt64 (slice data (q + 8 + 48) 8)).toNat) })
      ∧ (fs.targetCreatable = true → beInt64 (slice data (q + 8 + 48) 8) < 0 →
          chunkLoop fuel ⟨data, p⟩ fs
            = some { err := some (.wrap "seek error" .EINVAL), target := some [] }) := by
  obtain ⟨k, hk⟩ : ∃ k, fuel = n + (k + 1) := ⟨fuel - n - 1, by omega⟩
  have e : ChunkType.encodedSize .DAOX = 64 := by decide
  have hloop : chunkLoop fuel ⟨data, p⟩ fs
      = some (extract ⟨data, 0⟩ (decodeDAOX (slice data (q + 8) 64)) fs) := by
    rw [hk, chunkLoop_ignoredRun data fs n p q (k + 1) hrun, chunkLoop_DAOX data q k fs hdaox, e,
      extract_pos data _ 0]
  have hI : (decodeDAOX (slice data (q + 8) 64)).Index1 = beInt64 (slice data (q + 8 + 48) 8) := by
    simp only [decodeDAOX]
    rw [slice_slice _ _ _ _ _ (by omega)]
  have hE : (decodeDAOX (slice data (q + 8) 64)).EndOfTrack
      = beInt64 (slice data (q + 8 + 56) 8) := by
    simp only [decodeDAOX]
    rw [slice_slice _ _ _ _ _ (by omega)]
  refine ⟨hloop, ?_, hI, hE, ?_, ?_⟩
  · intro hsrc ht
    rw [convert_NeroV2_loop fs data p fuel hsrc ht, hloop]
  · intro hc h0 h1 h2
    rw [hloop, extract_ok data 0 _ fs hc (by rw [hI]; exact h0) (by rw [hI, hE]; exact h1)
      (by rw [hE]; exact h2) (by rw [hE]; exact (beInt64_range _).2), hI, hE]
  · intro hc hneg
    rw [hloop, extract, Seek_Start_error _ _ (by rw [hI]; exact hneg)]
    simp only [hc, Bool.true_eq_false, if_false]

/-- C10.  When `n ≥ 0` well-formed `CUEX` / `SINF` / `MTYP` chunks lead from `p` to
an `END!` header at `q`, the loop of `convert` started at `p` (and `convert` itself
on a `NeroV2` container whose trailer offset is `p`) returns the non-nil error
`image format not supported`, which wraps a nil error, and leaves the target as it
was. -/
theorem chunkLoop_END_before_DAOX (data : List Byte) (fs : FileSystem) (n p q fuel : Nat)
    (hrun : ignoredRun data n p q) (hend : chunkAt data q .END) (hfuel : n + 1 ≤ fuel) :
    chunkLoop fuel ⟨data, p⟩ fs
        = some { err := some (.wrapNil "image format not supported"), target := fs.target }
      ∧ (fs.source = some data → NeroV2TrailerAt data p →
          convert fuel fs
            = some { err := some (.wrapNil "image format not supported")
                     target := fs.target }) := by
  obtain ⟨k, hk⟩ : ∃ k, fuel = n + (k + 1) := ⟨fuel - n - 1, by omega⟩
  have hloop : chunkLoop fuel ⟨data, p⟩ fs
      = some { err := some (.wrapNil "image format not supported"), target := fs.target } := by
    rw [hk, chunkLoop_ignoredRun data fs n p q (k + 1) hrun, chunkLoop_END data q k fs hend]
  refine ⟨hloop, ?_⟩
  intro hsrc ht
  rw [convert_NeroV2_loop fs data p fuel hsrc ht, hloop]



/-- Witness of C9: four payload bytes, then at offset 4 a `CUEX` chunk, a `SINF`
chunk and a `DAOX` chunk with the range `[1, 3)`, then the `NER5` trailer with
offset 4; the target receives the source bytes 1 and 2. -/
theorem chunkLoop_finds_DAOX_witness :
    convert 3
        ⟨some ([9, 8, 7, 6]
            ++ [67, 85, 69, 88, 0, 0, 0, 8, 1, 1, 0, 0, 0, 0, 0, 0]
            ++ [83, 73, 78, 70, 0, 0, 0, 4, 0, 0, 0, 1]
            ++ ([68, 65, 79, 88, 0, 0, 0, 64] ++ List.replicate 48 0
                ++ [0, 0, 0, 0, 0, 0, 0, 1, 0, 0, 0, 0, 0, 0, 0, 3])
            ++ [78, 69, 82, 53, 0, 0, 0, 0, 0, 0, 0, 4]), none, true⟩
      = some ⟨none, some [8, 7]⟩ :=
  ((chunkLoop_finds_DAOX
      ([9, 8, 7, 6]
        ++ [67, 85, 69, 88, 0, 0, 0, 8, 1, 1, 0, 0, 0, 0, 0, 0]
        ++ [83, 73, 78, 70, 0, 0, 0, 4, 0, 0, 0, 1]
        ++ ([68, 65, 79, 88, 0, 0, 0, 64] ++ List.replicate 48 0
            ++ [0, 0, 0, 0, 0, 0, 0, 1, 0, 0, 0, 0, 0, 0, 0, 3])
        ++ [78, 69, 82, 53, 0, 0, 0, 0, 0, 0, 0, 4])
      ⟨some ([9, 8, 7, 6]
            ++ [67, 85, 69, 88, 0, 0, 0, 8, 1, 1, 0, 0, 0, 0, 0, 0]
            ++ [83, 73, 78, 70, 0, 0, 0, 4, 0, 0, 0, 1]
            ++ ([68, 65, 79, 88, 0, 0, 0, 64] ++ List.replicate 48 0
                ++ [0, 0, 0, 0, 0, 0, 0, 1, 0, 0, 0, 0, 0, 0, 0, 3])
            ++ [78, 69, 82, 53, 0, 0, 0, 0, 0, 0, 0, 4]), none, true⟩
      2 4 32 3 (by decide) (by decide) (by decide)).2.1 rfl (by decide)).trans (by decide)

/-- Witness of C10: an `MTYP` chunk, then an `END!` header, then the `NER5` trailer
with offset 0. -/
theorem chunkLoop_END_before_DAOX_witness :
    convert 2
        ⟨some [77, 84, 89, 80, 0, 0, 0, 4, 0, 0, 0, 1, 69, 78, 68, 33, 0, 0, 0, 0,
               78, 69, 82, 53, 0, 0, 0, 0, 0, 0, 0, 0], some [1, 2, 3], true⟩
      = some ⟨some (.wrapNil "image format not supported"), some [1, 2, 3]⟩ :=
  (chunkLoop_END_before_DAOX
      [77, 84, 89, 80, 0, 0, 0, 4, 0, 0, 0, 1, 69, 78, 68, 33, 0, 0, 0, 0,
        78, 69, 82, 53, 0, 0, 0, 0, 0, 0, 0, 0]
      ⟨some [77, 84, 89, 80, 0, 0, 0, 4, 0, 0, 0, 1, 69, 78, 68, 33, 0, 0, 0, 0,
               78, 69, 82, 53, 0, 0, 0, 0, 0, 0, 0, 0], some [1, 2, 3], true⟩
      1 0 12 2 (by decide) (by decide) (by decide)).2 rfl (by decide)

/-! ## Every result of `readChunk` -/

/-- The result of `readChunk` with fewer than 8 bytes left. -/
theorem readChunk_header_short (f : File) (h : f.data.length < f.pos + 8) :
    readChunk f
      = .error (.wrap "read chunk header error"
          (if f.data.length ≤ f.pos then .EOF else .ErrUnexpectedEOF)) := by
  rw [readChunk, binaryRead_error f 8 (by omega) h]

/-- The result of `readChunk` on a header with the tag of `t` followed by fewer
bytes than the known layout of `t`. -/
theorem readChunk_body_short (f : File) (t : ChunkType)
    (hhdr : f.pos + 8 ≤ f.data.length) (htag : slice f.data f.pos 4 = t.tag)
    (h : f.data.length < f.pos + 8 + t.encodedSize) :
    readChunk f
      = .error (.wrap "read chunk error"
          (if f.data.length ≤ f.pos + 8 then .EOF else .ErrUnexpectedEOF)) := by
  rw [readChunk, binaryRead_ok f 8 hhdr]
  simp only [decodeChunkHeader]
  rw [slice_slice f.data f.pos 8 0 4 (by omega)]
  simp only [Nat.add_zero, htag, chunkTypeOf_tag]
  rw [binaryRead_error _ t.encodedSize (by omega) (by simp only []; omega)]

/-- The four ways a call of `readChunk` can end. -/
theorem readChunk_cases (f : File) :
    (f.data.length < f.pos + 8
        ∧ readChunk f = .error (.wrap "read chunk header error"
            (if f.data.length ≤ f.pos then .EOF else .ErrUnexpectedEOF)))
      ∨ (f.pos + 8 ≤ f.data.length ∧ (∀ t : ChunkType, slice f.data f.pos 4 ≠ t.tag)
        ∧ readChunk f = .error (.unknownChunkID (slice f.data f.pos 4)))
      ∨ (∃ t : ChunkType, f.pos + 8 ≤ f.data.length ∧ slice f.data f.pos 4 = t.tag
        ∧ f.data.length < f.pos + 8 + t.encodedSize
        ∧ readChunk f = .error (.wrap "read chunk error"
            (if f.data.length ≤ f.pos + 8 then .EOF else .ErrUnexpectedEOF)))
      ∨ (∃ t : ChunkType, chunkAt f.data f.pos t
        ∧ readChunk f
          = .ok (decodeChunk t (slice f.data (f.pos + 8) t.encodedSize),
                 { data := f.data,
                   pos := f.pos + 8 + max (declaredSizeAt f.data f.pos) t.encodedSize })) := by
  by_cases hh : f.data.length < f.pos + 8
  · exact Or.inl ⟨hh, readChunk_header_short f hh⟩
  · have hhdr : f.pos + 8 ≤ f.data.length := by omega
    cases hc : chunkTypeOf (slice f.data f.pos 4) with
    | none =>
      refine Or.inr (Or.inl ⟨hhdr, ?_, readChunk_unknown f hhdr hc⟩)
      intro t ht
      rw [ht, chunkTypeOf_tag] at hc
      cases hc
    | some t =>
      have htag := chunkTypeOf_eq_some _ t hc
      by_cases hb : f.data.length < f.pos + 8 + t.encodedSize
      · exact Or.inr (Or.inr (Or.inl ⟨t, hhdr, htag, hb, readChunk_body_short f t hhdr htag hb⟩))
      · have hbody : f.pos + 8 + t.encodedSize ≤ f.data.length := by omega
        exact Or.inr (Or.inr (Or.inr ⟨t, ⟨htag, hbody⟩, readChunk_known f t htag hbody⟩))

/-- The tags of the five record types are pairwise different. -/
theorem tag_injective (t u : ChunkType) (h : t.tag = u.tag) : t = u := by
  cases t <;> cases u <;> first | rfl | (exact absurd h (by decide))

/-- A successful `readChunk` decoded a chunk that stands in the file. -/
theorem readChunk_ok_inv (f g : File) (c : Chunk) (h : readChunk f = .ok (c, g)) :
    ∃ t : ChunkType, chunkAt f.data f.pos t
      ∧ c = decodeChunk t (slice f.data (f.pos + 8) t.encodedSize)
      ∧ g = { data := f.data,
              pos := f.pos + 8 + max (declaredSizeAt f.data f.pos) t.encodedSize } := by
  rcases readChunk_cases f with ⟨_, he⟩ | ⟨_, _, he⟩ | ⟨t, _, _, _, he⟩ | ⟨t, hat, hok⟩
  · rw [he] at h; cases h
  · rw [he] at h; cases h
  · rw [he] at h; cases h
  · rw [hok] at h
    cases h
    exact ⟨t, hat, rfl, rfl⟩

/-! ## The claims on truncation, sizes and the order of the variants -/

/-- C11.  At every stream position `readChunk` fails with a truncation error
(`io.EOF` or `io.ErrUnexpectedEOF`, wrapped) when fewer than 8 bytes are left for
the header, and when after a header with a known tag fewer bytes are left than the
known layout of that tag (CUEX 8, DAOX 64, SINF 4, MTYP 4, END! 0), whatever the
declared size; a record it returns is decoded from bytes that are all in the file. -/
theorem readChunk_truncated (f : File) :
    (f.data.length < f.pos + 8 →
        readChunk f = .error (.wrap "read chunk header error"
          (if f.data.length ≤ f.pos then .EOF else .ErrUnexpectedEOF)))
      ∧ (∀ t : ChunkType, f.pos + 8 ≤ f.data.length → slice f.data f.pos 4 = t.tag →
          f.data.length < f.pos + 8 + t.encodedSize →
          readChunk f = .error (.wrap "read chunk error"
            (if f.data.length ≤ f.pos + 8 then .EOF else .ErrUnexpectedEOF)))
      ∧ (∀ (c : Chunk) (g : File), readChunk f = .ok (c, g) →
          ∃ t : ChunkType, slice f.data f.pos 4 = t.tag
            ∧ f.pos + 8 + t.encodedSize ≤ f.data.length
            ∧ (slice f.data (f.pos + 8) t.encodedSize).length = t.encodedSize
            ∧ c = decodeChunk t (slice f.data (f.pos + 8) t.encodedSize))
      ∧ [ChunkType.CUEX, .DAOX, .SINF, .MTYP, .END].map ChunkType.encodedSize
          = [8, 64, 4, 4, 0] := by
  refine ⟨readChunk_header_short f, ?_, ?_, by decide⟩
  · intro t hhdr htag hb
    exact readChunk_body_short f t hhdr htag hb
  · intro c g h
    obtain ⟨t, hat, hc, _⟩ := readChunk_ok_inv f g c h
    exact ⟨t, hat.1, hat.2, slice_length _ _ _ (by have := hat.2; omega), hc⟩

/-- Witness of C11: five bytes where a header should start; a `DAOX` header
declaring 64 bytes followed by ten bytes only. -/
theorem readChunk_truncated_witness :
    readChunk ⟨[68, 65, 79, 88, 0], 0⟩
        = .error (.wrap "read chunk header error" .ErrUnexpectedEOF)
      ∧ readChunk ⟨[68, 65, 79, 88, 0, 0, 0, 64, 1, 2, 3, 4, 5, 6, 7, 8, 9, 10], 0⟩
        = .error (.wrap "read chunk error" .ErrUnexpectedEOF) :=
  ⟨(readChunk_truncated ⟨[68, 65, 79, 88, 0], 0⟩).1 (by decide),
   (readChunk_truncated ⟨[68, 65, 79, 88, 0, 0, 0, 64, 1, 2, 3, 4, 5, 6, 7, 8, 9, 10], 0⟩).2.1
      .DAOX (by decide) (by decide) (by decide)⟩

/-- C14.  `getFormat` tries `NeroV1` first: on every file of at least 12 bytes whose
bytes `[EOF-8, EOF-4)` are `NERO` the result is `NeroV1`, whatever bytes
`[EOF-12, EOF-8)` are, `NER5` included; and `NeroV2` is the result exactly when the
`NERO` comparison fails and the `NER5` comparison at `[EOF-12, EOF-8)` succeeds. -/
theorem getFormat_order (f : File) (h12 : 12 ≤ f.data.length) :
    (slice f.data (f.data.length - 8) 4 = NeroV1FormatCode →
        getFormat f = .ok (.NeroV1, { data := f.data, pos := f.data.length - 8 + 4 }))
      ∧ ((∃ g : File, getFormat f = .ok (.NeroV2, g))
          ↔ slice f.data (f.data.length - 8) 4 ≠ NeroV1FormatCode
            ∧ slice f.data (f.data.length - 12) 4 = NeroV2FormatCode) := by
  refine ⟨fun h1 => getFormat_V1 f (by omega) h1, ?_, ?_⟩
  · rintro ⟨g, hg⟩
    by_cases hc1 : slice f.data (f.data.length - 8) 4 = NeroV1FormatCode
    · rw [getFormat_V1 f (by omega) hc1] at hg; cases hg
    · by_cases hc2 : slice f.data (f.data.length - 12) 4 = NeroV2FormatCode
      · exact ⟨hc1, hc2⟩
      · rw [getFormat_none f h12 hc1 hc2] at hg; cases hg
  · rintro ⟨hc1, hc2⟩
    exact ⟨_, getFormat_V2 f h12 hc1 hc2⟩

/-- Witness of C14: `NER5` at `[EOF-12, EOF-8)` and `NERO` at `[EOF-8, EOF-4)` give
`NeroV1`; `NER5` followed by the offset 16 gives `NeroV2`. -/
theorem getFormat_order_witness :
    getFormat ⟨[1, 2, 78, 69, 82, 53, 78, 69, 82, 79, 0, 0, 0, 16], 3⟩
        = .ok (.NeroV1, ⟨[1, 2, 78, 69, 82, 53, 78, 69, 82, 79, 0, 0, 0, 16], 10⟩)
      ∧ ∃ g : File, getFormat ⟨[1, 2, 78, 69, 82, 53, 0, 0, 0, 0, 0, 0, 0, 16], 3⟩
          = .ok (.NeroV2, g) :=
  ⟨(getFormat_order ⟨[1, 2, 78, 69, 82, 53, 78, 69, 82, 79, 0, 0, 0, 16], 3⟩ (by decide)).1
      (by decide),
   (getFormat_order ⟨[1, 2, 78, 69, 82, 53, 0, 0, 0, 0, 0, 0, 0, 16], 3⟩ (by decide)).2.2
      ⟨by decide, by decide⟩⟩

/-- C16.  For each of the five record types the size `readChunk` subtracts from the
declared size, the in-memory size of the type with its alignment padding, is the
number of bytes the decoder consumes: CUEX 8, DAOX 64, SINF 4, MTYP 4, END 0.  So
for a chunk in the file the seek after the decoding moves the stream by the
declared size minus the encoded size when that is positive, and not at all
otherwise. -/
theorem memSize_is_encodedSize (f : File) (t : ChunkType) (h : chunkAt f.data f.pos t) :
    t.memSize = t.encodedSize
      ∧ [ChunkType.CUEX, .DAOX, .SINF, .MTYP, .END].map ChunkType.memSize = [8, 64, 4, 4, 0]
      ∧ [ChunkType.CUEX, .DAOX, .SINF, .MTYP, .END].map ChunkType.encodedSize
          = [8, 64, 4, 4, 0]
      ∧ readChunk f
          = .ok (decodeChunk t (slice f.data (f.pos + 8) t.encodedSize),
                 { data := f.data,
                   pos := f.pos + 8 + t.encodedSize
                     + (declaredSizeAt f.data f.pos - t.encodedSize) }) := by
  refine ⟨memSize_eq_encodedSize t, by decide, by decide, ?_⟩
  rw [readChunk_known f t h.1 h.2]
  have e : f.pos + 8 + max (beUint (slice f.data (f.pos + 4) 4)) t.encodedSize
      = f.pos + 8 + t.encodedSize + (declaredSizeAt f.data f.pos - t.encodedSize) := by
    unfold declaredSizeAt; omega
  rw [e]

/-- Witness of C16: a `CUEX` chunk declaring 11 bytes, three more than its layout. -/
theorem memSize_is_encodedSize_witness :
    ChunkType.memSize .CUEX = ChunkType.encodedSize .CUEX
      ∧ readChunk ⟨[67, 85, 69, 88, 0, 0, 0, 11, 1, 2, 3, 0, 0, 0, 0, 7, 9, 9, 9], 0⟩
        = .ok (.CUEX ⟨1, 2, 3, 0, 7⟩,
               ⟨[67, 85, 69, 88, 0, 0, 0, 11, 1, 2, 3, 0, 0, 0, 0, 7, 9, 9, 9], 19⟩) :=
  ⟨(memSize_is_encodedSize
      ⟨[67, 85, 69, 88, 0, 0, 0, 11, 1, 2, 3, 0, 0, 0, 0, 7, 9, 9, 9], 0⟩ .CUEX (by decide)).1,
   (memSize_is_encodedSize
      ⟨[67, 85, 69, 88, 0, 0, 0, 11, 1, 2, 3, 0, 0, 0, 0, 7, 9, 9, 9], 0⟩ .CUEX
      (by decide)).2.2.2⟩

/-- C17.  For `NeroV1`, `getFirstChunkOffset` returns an error on every file: on a
file of at least four bytes the seek to `EOF-4` succeeds and the read of the 8-byte
integer finds four bytes (`io.ErrUnexpectedEOF`); on a shorter file the seek fails.
So `convert` fails on every source that `getFormat` classifies as `NeroV1`, and the
target is left as it was. -/
theorem getFirstChunkOffset_NeroV1_fails (f : File) :
    getFirstChunkOffset f .NeroV1
        = .error (if f.data.length < 4 then .EINVAL else .ErrUnexpectedEOF)
      ∧ ∀ (fs : FileSystem) (g : File) (fuel : Nat), fs.source = some f.data →
          getFormat ⟨f.data, 0⟩ = .ok (.NeroV1, g) →
          convert fuel fs
            = some { err := some (.wrap "failed parsing source file" .ErrUnexpectedEOF)
                     target := fs.target } := by
  refine ⟨getFirstChunkOffset_V1 f, ?_⟩
  intro fs g fuel hsrc hfmt
  have h8 : 8 ≤ f.data.length := by
    by_cases h : f.data.length < 8
    · rw [getFormat_short ⟨f.data, 0⟩ h] at hfmt; cases hfmt
    · omega
  have hm1 : slice f.data (f.data.length - 8) 4 = NeroV1FormatCode := by
    by_cases hc1 : slice f.data (f.data.length - 8) 4 = NeroV1FormatCode
    · exact hc1
    · by_cases h12 : f.data.length < 12
      · rw [getFormat_mid ⟨f.data, 0⟩ h8 h12 hc1] at hfmt; cases hfmt
      · by_cases hc2 : slice f.data (f.data.length - 12) 4 = NeroV2FormatCode
        · rw [getFormat_V2 ⟨f.data, 0⟩ (by simp only []; omega) hc1 hc2] at hfmt; cases hfmt
        · rw [getFormat_none ⟨f.data, 0⟩ (by simp only []; omega) hc1 hc2] at hfmt; cases hfmt
  exact convert_NeroV1_fails fs f.data fuel hsrc h8 hm1

/-- Witness of C17: an older-variant file with a `DAOX` header at offset 0 and the
trailer `NERO`, offset 0. -/
theorem getFirstChunkOffset_NeroV1_fails_witness :
    getFirstChunkOffset ⟨[68, 65, 79, 88, 0, 0, 0, 0, 78, 69, 82, 79, 0, 0, 0, 0], 12⟩ .NeroV1
        = .error .ErrUnexpectedEOF
      ∧ convert 4 ⟨some [68, 65, 79, 88, 0, 0, 0, 0, 78, 69, 82, 79, 0, 0, 0, 0], none, true⟩
        = some ⟨some (.wrap "failed parsing source file" .ErrUnexpectedEOF), none⟩ :=
  ⟨(getFirstChunkOffset_NeroV1_fails
      ⟨[68, 65, 79, 88, 0, 0, 0, 0, 78, 69, 82, 79, 0, 0, 0, 0], 12⟩).1,
   (getFirstChunkOffset_NeroV1_fails
      ⟨[68, 65, 79, 88, 0, 0, 0, 0, 78, 69, 82, 79, 0, 0, 0, 0], 12⟩).2
      ⟨some [68, 65, 79, 88, 0, 0, 0, 0, 78, 69, 82, 79, 0, 0, 0, 0], none, true⟩
      ⟨[68, 65, 79, 88, 0, 0, 0, 0, 78, 69, 82, 79, 0, 0, 0, 0], 12⟩ 4 rfl (by decide)⟩

/-! ## The `DAOX` record -/

theorem getD_take_one_drop (b : List Byte) (n : Nat) :
    ((b.drop n).take 1).getD 0 0 = b.getD n 0 := by
  simp [List.getD_eq_getElem?_getD, List.getElem?_take, List.getElem?_drop]

/-- The explicit decoder of `DAOX` is the field-by-field decoder on its field list. -/
theorem decodeFields_DAOX (b : List Byte) :
    decodeFields (ChunkType.fields .DAOX) b = (decodeDAOX b).values := by
  simp only [ChunkType.fields, decodeFields, decodeField, FieldType.encodedSize, DAOX.values,
    decodeDAOX, slice, List.drop_drop, getD_take_one_drop, List.drop_zero, Nat.reduceAdd]

/-- The extraction looks at `Index1` and `EndOfTrack` only. -/
theorem extract_congr (inFile : File) (d1 d2 : DAOX) (fs : FileSystem)
    (h1 : d1.Index1 = d2.Index1) (h2 : d1.EndOfTrack = d2.EndOfTrack) :
    extract inFile d1 fs = extract inFile d2 fs := by
  simp only [extract, h1, h2]

/-! ## Every run of the loop -/

theorem skipTo_some (data : List Byte) (p p1 : Nat) (h : skipTo data p = some p1) :
    ∃ t : ChunkType, (t = .CUEX ∨ t = .SINF ∨ t = .MTYP) ∧ chunkAt data p t
      ∧ p1 = p + 8 + max (declaredSizeAt data p) t.encodedSize := by
  unfold skipTo at h
  split at h
  · next hc => cases h; exact ⟨.CUEX, Or.inl rfl, hc, rfl⟩
  · split at h
    · next hc => cases h; exact ⟨.SINF, Or.inr (Or.inl rfl), hc, rfl⟩
    · split at h
      · next hc => cases h; exact ⟨.MTYP, Or.inr (Or.inr rfl), hc, rfl⟩
      · cases h

theorem skipTo_none (data : List Byte) (p : Nat) (h : skipTo data p = none) :
    ¬ chunkAt data p .CUEX ∧ ¬ chunkAt data p .SINF ∧ ¬ chunkAt data p .MTYP := by
  unfold skipTo at h
  split at h
  · cases h
  · next h1 =>
    split at h
    · cases h
    · next h2 =>
      split at h
      · cases h
      · next h3 => exact ⟨h1, h2, h3⟩

/-- A chunk passed over is at least 12 bytes long and lies in the file. -/
theorem skipTo_bound (data : List Byte) (p p1 : Nat) (h : skipTo data p = some p1) :
    p + 12 ≤ p1 ∧ p + 12 ≤ data.length := by
  obtain ⟨t, ht, hat, hp⟩ := skipTo_some data p p1 h
  have h8 : ChunkType.encodedSize .CUEX = 8 := by decide
  have h4 : ChunkType.encodedSize .SINF = 4 := by decide
  have h4m : ChunkType.encodedSize .MTYP = 4 := by decide
  have hb := hat.2
  rcases ht with rfl | rfl | rfl
  · rw [h8] at hp hb; omega
  · rw [h4] at hp hb; omega
  · rw [h4m] at hp hb; omega

/-- One iteration of the loop on a chunk that is passed over. -/
theorem chunkLoop_skip (data : List Byte) (p p1 fuel : Nat) (fs : FileSystem)
    (h : skipTo data p = some p1) :
    chunkLoop (fuel + 1) ⟨data, p⟩ fs = chunkLoop fuel ⟨data, p1⟩ fs := by
  obtain ⟨t, ht, hat, hp⟩ := skipTo_some data p p1 h
  have hr := readChunk_known ⟨data, p⟩ t hat.1 hat.2
  rw [chunkLoop, hr, hp]
  rcases ht with rfl | rfl | rfl <;> rfl

/-- The iteration of the loop at a position where no chunk is passed over ends the
loop, in one of three ways. -/
theorem chunkLoop_stop (data : List Byte) (p : Nat) (fs : FileSystem)
    (h : skipTo data p = none) :
    (chunkAt data p .DAOX
        ∧ ∀ fuel : Nat, chunkLoop (fuel + 1) ⟨data, p⟩ fs
          = some (extract ⟨data, 0⟩ (decodeDAOX (slice data (p + 8) 64)) fs))
      ∨ (chunkAt data p .END
        ∧ ∀ fuel : Nat, chunkLoop (fuel + 1) ⟨data, p⟩ fs
          = some { err := some (.wrapNil "image format not supported"), target := fs.target })
      ∨ (∃ e : GoError, readChunk ⟨data, p⟩ = .error e
        ∧ ∀ fuel : Nat, chunkLoop (fuel + 1) ⟨data, p⟩ fs
          = some { err := some (.wrap "failed reading source file" e),
                   target := fs.target }) := by
  obtain ⟨n1, n2, n3⟩ := skipTo_none data p h
  have e64 : ChunkType.encodedSize .DAOX = 64 := by decide
  rcases readChunk_cases ⟨data, p⟩ with ⟨_, he⟩ | ⟨_, _, he⟩ | ⟨t, _, _, _, he⟩ | ⟨t, hat, _⟩
  · exact Or.inr (Or.inr ⟨_, he, fun fuel => by rw [chunkLoop, he]⟩)
  · exact Or.inr (Or.inr ⟨_, he, fun fuel => by rw [chunkLoop, he]⟩)
  · exact Or.inr (Or.inr ⟨_, he, fun fuel => by rw [chunkLoop, he]⟩)
  · cases t with
    | CUEX => exact absurd hat n1
    | SINF => exact absurd hat n2
    | MTYP => exact absurd hat n3
    | DAOX =>
      refine Or.inl ⟨hat, fun fuel => ?_⟩
      rw [chunkLoop_DAOX data p fuel fs hat, e64, extract_pos data _ 0]
    | END => exact Or.inr (Or.inl ⟨hat, fun fuel => chunkLoop_END data p fuel fs hat⟩)

/-- Where the loop stops, the result does not depend on the iterations left. -/
theorem chunkLoop_stop_fuel (data : List Byte) (p fuel : Nat) (fs : FileSystem)
    (h : skipTo data p = none) :
    chunkLoop (fuel + 1) ⟨data, p⟩ fs = chunkLoop 1 ⟨data, p⟩ fs := by
  rcases chunkLoop_stop data p fs h with ⟨_, he⟩ | ⟨_, he⟩ | ⟨_, _, he⟩
  · rw [he fuel, he 0]
  · rw [he fuel, he 0]
  · rw [he fuel, he 0]

/-- The loop passes over `n` chunks in `n` iterations. -/
theorem chunkLoop_loopPos (data : List Byte) (fs : FileSystem) (n : Nat) :
    ∀ (p q fuel : Nat), loopPos data n p = some q →
      chunkLoop (n + fuel) ⟨data, p⟩ fs = chunkLoop fuel ⟨data, q⟩ fs := by
  induction n with
  | zero =>
    intro p q fuel h
    simp only [loopPos, Option.some.injEq] at h
    subst h
    simp only [Nat.zero_add]
  | succ n ih =>
    intro p q fuel h
    rw [loopPos] at h
    cases hs : skipTo data p with
    | none => rw [hs] at h; cases h
    | some p1 =>
      rw [hs] at h
      have e : n + 1 + fuel = (n + fuel) + 1 := by omega
      rw [e, chunkLoop_skip data p p1 (n + fuel) fs hs]
      exact ih p1 q fuel h

/-- From every position the loop arrives, after at most `(length - p) / 8` chunks
passed over, at a position where it stops. -/
theorem loopPos_stops (data : List Byte) :
    ∀ (k p : Nat), (data.length - p) / 8 ≤ k →
      ∃ n q : Nat, n ≤ (data.length - p) / 8 ∧ loopPos data n p = some q
        ∧ skipTo data q = none := by
  intro k
  induction k with
  | zero =>
    intro p hk
    cases hs : skipTo data p with
    | none => exact ⟨0, p, Nat.zero_le _, rfl, hs⟩
    | some p1 =>
      have hb := skipTo_bound data p p1 hs
      omega
  | succ k ih =>
    intro p hk
    cases hs : skipTo data p with
    | none => exact ⟨0, p, Nat.zero_le _, rfl, hs⟩
    | some p1 =>
      have hb := skipTo_bound data p p1 hs
      have hk1 : (data.length - p1) / 8 ≤ k := by omega
      obtain ⟨n, q, hn, hl, hq⟩ := ih p1 hk1
      refine ⟨n + 1, q, by omega, ?_, hq⟩
      rw [loopPos, hs]
      exact hl

/-- A run of the loop that ends has passed over some chunks and stopped at the
next position. -/
theorem chunkLoop_some_inv (data : List Byte) (fs : FileSystem) (o : Outcome) :
    ∀ (fuel p : Nat), chunkLoop fuel ⟨data, p⟩ fs = some o →
      ∃ n q : Nat, n + 1 ≤ fuel ∧ loopPos data n p = some q ∧ skipTo data q = none
        ∧ chunkLoop 1 ⟨data, q⟩ fs = some o := by
  intro fuel
  induction fuel with
  | zero =>
    intro p h
    rw [chunkLoop] at h
    cases h
  | succ fuel ih =>
    intro p h
    cases hs : skipTo data p with
    | none =>
      refine ⟨0, p, by omega, rfl, hs, ?_⟩
      rw [← chunkLoop_stop_fuel data p fuel fs hs]
      exact h
    | some p1 =>
      rw [chunkLoop_skip data p p1 fuel fs hs] at h
      obtain ⟨n, q, hn, hl, hq, ho⟩ := ih p1 h
      refine ⟨n + 1, q, by omega, ?_, hq, ho⟩
      rw [loopPos, hs]
      exact hl

/-! ## Every run of the driver -/

/-- A run of `convert` on a source that can be opened fails before the loop, with
the target untouched, or enters the loop at the offset of a `NeroV2` trailer. -/
theorem convert_cases (fs : FileSystem) (data : List Byte) (hsrc : fs.source = some data) :
    (∃ e : GoError, ∀ fuel : Nat,
        convert fuel fs = some { err := some e, target := fs.target })
      ∨ (∃ off : Nat, NeroV2TrailerAt data off
          ∧ ∀ fuel : Nat, convert fuel fs = chunkLoop fuel ⟨data, off⟩ fs) := by
  by_cases h8 : data.length < 8
  · left
    refine ⟨.wrap "failed parsing source file" (.wrap "seek error" .EINVAL), fun fuel => ?_⟩
    rw [convert, hsrc]
    simp only []
    rw [getFormat_short ⟨data, 0⟩ h8]
  · by_cases hc1 : slice data (data.length - 8) 4 = NeroV1FormatCode
    · left
      exact ⟨_, fun fuel => convert_NeroV1_fails fs data fuel hsrc (by omega) hc1⟩
    · by_cases h12 : data.length < 12
      · left
        refine ⟨.wrap "failed parsing source file" (.wrap "seek error" .EINVAL), fun fuel => ?_⟩
        rw [convert, hsrc]
        simp only []
        rw [getFormat_mid ⟨data, 0⟩ (by simp only []; omega) h12 hc1]
      · by_cases hc2 : slice data (data.length - 12) 4 = NeroV2FormatCode
        · by_cases hneg : beInt64 (slice data (data.length - 8) 8) < 0
          · left
            refine ⟨.wrap "failed reading source file" .EINVAL, fun fuel => ?_⟩
            rw [convert, hsrc]
            simp only []
            rw [getFormat_V2 ⟨data, 0⟩ (by simp only []; omega) hc1 hc2]
            simp only []
            rw [getFirstChunkOffset_V2 _ (by simp only []; omega)]
            simp only []
            rw [Seek_Start_error _ _ hneg]
          · right
            obtain ⟨off, hoff⟩ := Int.eq_ofNat_of_zero_le (Int.not_lt.mp hneg)
            have ht : NeroV2TrailerAt data off := ⟨by omega, hc2, hc1, hoff⟩
            exact ⟨off, ht, fun fuel => convert_NeroV2_loop fs data off fuel hsrc ht⟩
        · left
          refine ⟨.wrap "failed parsing source file" (.errorf "unable to determine format"), fun fuel => ?_⟩
          rw [convert, hsrc]
          simp only []
          rw [getFormat_none ⟨data, 0⟩ (by simp only []; omega) hc1 hc2]

/-- What a successful extraction has done, for a record of `int64` fields and a
source below `2^63` bytes. -/
theorem extract_success_inv (data : List Byte) (p : Nat) (daox : DAOX) (fs : FileSystem)
    (hI : daox.Index1 < 2 ^ 63)
    (hE : -2 ^ 63 ≤ daox.EndOfTrack ∧ daox.EndOfTrack < 2 ^ 63)
    (hlen : data.length < 2 ^ 63)
    (h : (extract ⟨data, p⟩ daox fs).err = none) :
    fs.targetCreatable = true ∧ 0 ≤ daox.Index1
      ∧ ((daox.Index1 < daox.EndOfTrack ∧ daox.EndOfTrack ≤ (data.length : Int)
            ∧ (extract ⟨data, p⟩ daox fs).target
              = some (slice data daox.Index1.toNat (daox.EndOfTrack - daox.Index1).toNat))
          ∨ (daox.EndOfTrack ≤ daox.Index1
            ∧ (extract ⟨data, p⟩ daox fs).target = some [])) := by
  cases hc : fs.targetCreatable with
  | false =>
    simp only [extract, hc, if_true] at h
    cases h
  | true =>
    by_cases hneg : daox.Index1 < 0
    · rw [extract, Seek_Start_error _ _ hneg] at h
      simp only [hc, Bool.true_eq_false, if_false] at h
      cases h
    · obtain ⟨i, hi⟩ := Int.eq_ofNat_of_zero_le (Int.not_lt.mp hneg)
      obtain ⟨hzero, hfull, hshort⟩ := extract_of_count data p i daox fs hc hi
      refine ⟨rfl, by omega, ?_⟩
      by_cases hlow : daox.EndOfTrack - daox.Index1 < -2 ^ 63
      · exfalso
        have hw := wrapInt64_of_low _ (by omega) hlow
        obtain ⟨m, hm⟩ := Int.eq_ofNat_of_zero_le
          (show 0 ≤ daox.EndOfTrack - daox.Index1 + 2 ^ 64 by omega)
        rw [hshort m (hw.trans hm) (by omega) (by omega)] at h
        cases h
      · have hw := wrapInt64_of_range (daox.EndOfTrack - daox.Index1) (by omega) (by omega)
        by_cases hle : daox.EndOfTrack ≤ daox.Index1
        · right
          exact ⟨hle, by rw [hzero (by rw [hw]; omega)]⟩
        · left
          obtain ⟨m, hm⟩ := Int.eq_ofNat_of_zero_le
            (show 0 ≤ daox.EndOfTrack - daox.Index1 by omega)
          by_cases hfit : i + m ≤ data.length
          · refine ⟨by omega, by omega, ?_⟩
            rw [hfull m (hw.trans hm) (by omega) hfit, hm, hi]
            simp only [Int.toNat_ofNat]
          · exfalso
            rw [hshort m (hw.trans hm) (by omega) (by omega)] at h
            cases h

/-- An error of `readChunk` is a truncation error or the unknown-tag error. -/
theorem readChunk_error_kind (f : File) (e : GoError) (h : readChunk f = .error e) :
    truncatedInput e ∨ e = .unknownChunkID (slice f.data f.pos 4) := by
  rcases readChunk_cases f with ⟨_, he⟩ | ⟨_, _, he⟩ | ⟨t, _, _, _, he⟩ | ⟨t, _, he⟩
  · rw [he] at h
    cases h
    left
    unfold truncatedInput
    split <;> simp
  · rw [he] at h
    cases h
    exact Or.inr rfl
  · rw [he] at h
    cases h
    left
    unfold truncatedInput
    split <;> simp
  · rw [he] at h
    cases h

/-! ## The claims on the runs of `convert` -/

/-- C12, counterexample.  A `DAOX` chunk with `Index1 = 3` and `EndOfTrack = 1`:
`convert` returns nil and the target is empty, although `EndOfTrack - Index1` is
`-2`; and a `DAOX` chunk with `Index1 = EndOfTrack = 768` in a source of 84 bytes:
`convert` returns nil although the range lies past the end of the source. -/
theorem convert_succeeds_on_reversed_range :
    convert 1
        ⟨some ([68, 65, 79, 88, 0, 0, 0, 64] ++ List.replicate 48 0
            ++ [0, 0, 0, 0, 0, 0, 0, 3, 0, 0, 0, 0, 0, 0, 0, 1]
            ++ [78, 69, 82, 53, 0, 0, 0, 0, 0, 0, 0, 0]), none, true⟩
        = some ⟨none, some []⟩
      ∧ (decodeDAOX (slice ([68, 65, 79, 88, 0, 0, 0, 64] ++ List.replicate 48 0
            ++ [0, 0, 0, 0, 0, 0, 0, 3, 0, 0, 0, 0, 0, 0, 0, 1]
            ++ [78, 69, 82, 53, 0, 0, 0, 0, 0, 0, 0, 0]) 8 64)).Index1 = 3
      ∧ (decodeDAOX (slice ([68, 65, 79, 88, 0, 0, 0, 64] ++ List.replicate 48 0
            ++ [0, 0, 0, 0, 0, 0, 0, 3, 0, 0, 0, 0, 0, 0, 0, 1]
            ++ [78, 69, 82, 53, 0, 0, 0, 0, 0, 0, 0, 0]) 8 64)).EndOfTrack = 1
      ∧ convert 1
        ⟨some ([68, 65, 79, 88, 0, 0, 0, 64] ++ List.replicate 48 0
            ++ [0, 0, 0, 0, 0, 0, 3, 0, 0, 0, 0, 0, 0, 0, 3, 0]
            ++ [78, 69, 82, 53, 0, 0, 0, 0, 0, 0, 0, 0]), none, true⟩
        = some ⟨none, some []⟩
      ∧ (decodeDAOX (slice ([68, 65, 79, 88, 0, 0, 0, 64] ++ List.replicate 48 0
            ++ [0, 0, 0, 0, 0, 0, 3, 0, 0, 0, 0, 0, 0, 0, 3, 0]
            ++ [78, 69, 82, 53, 0, 0, 0, 0, 0, 0, 0, 0]) 8 64)).Index1 = 768 := by
  decide

/-- C12, amended.  For a source below `2^63` bytes (a file size is an `int64`),
whenever `convert` returns nil, the run has read a `DAOX` chunk of the source, the
target could be created, `0 ≤ Index1`, and either
`Index1 < EndOfTrack ≤ source length` and the target holds exactly the
`EndOfTrack - Index1` source bytes `[Index1, EndOfTrack)`, or
`EndOfTrack ≤ Index1` and the target is empty. -/
theorem convert_success_inv (fs : FileSystem) (fuel : Nat) (o : Outcome)
    (hlen : ∀ data : List Byte, fs.source = some data → data.length < 2 ^ 63)
    (h : convert fuel fs = some o) (hok : o.err = none) :
    ∃ (data : List Byte) (q : Nat) (daox : DAOX),
      fs.source = some data ∧ decodesDAOXAt data q
        ∧ daox = decodeDAOX (slice data (q + 8) 64)
        ∧ fs.targetCreatable = true ∧ 0 ≤ daox.Index1
        ∧ ((daox.Index1 < daox.EndOfTrack ∧ daox.EndOfTrack ≤ (data.length : Int)
              ∧ o.target
                = some (slice data daox.Index1.toNat (daox.EndOfTrack - daox.Index1).toNat)
              ∧ (slice data daox.Index1.toNat (daox.EndOfTrack - daox.Index1).toNat).length
                = (daox.EndOfTrack - daox.Index1).toNat)
            ∨ (daox.EndOfTrack ≤ daox.Index1 ∧ o.target = some [])) := by
  cases hsrc : fs.source with
  | none =>
    rw [convert, hsrc] at h
    cases h
    cases hok
  | some data =>
    rcases convert_cases fs data hsrc with ⟨e, he⟩ | ⟨off, ht, hconv⟩
    · rw [he fuel] at h
      cases h
      cases hok
    · rw [hconv fuel] at h
      obtain ⟨n, q, _, hl, hq, h1⟩ := chunkLoop_some_inv data fs o fuel off h
      rcases chunkLoop_stop data q fs hq with ⟨hat, he⟩ | ⟨_, he⟩ | ⟨e, _, he⟩
      · rw [he 0] at h1
        cases h1
        obtain ⟨hc, h0, hcase⟩ := extract_success_inv data 0
          (decodeDAOX (slice data (q + 8) 64)) fs (beInt64_range _).2 (beInt64_range _)
          (hlen data hsrc) hok
        refine ⟨data, q, _, rfl, ⟨off, n, ht, hl, hat⟩, rfl, hc, h0, ?_⟩
        rcases hcase with ⟨hlt, hle, htgt⟩ | ⟨hle, htgt⟩
        · refine Or.inl ⟨hlt, hle, htgt, ?_⟩
          apply slice_length
          omega
        · exact Or.inr ⟨hle, htgt⟩
      · rw [he 0] at h1
        cases h1
        cases hok
      · rw [he 0] at h1
        cases h1
        cases hok

/-- Witness of C12 (amended): the run on a `DAOX` chunk with the range `[1, 3)`. -/
theorem convert_success_inv_witness :
    ∃ (data : List Byte) (q : Nat) (daox : DAOX),
      (FileSystem.mk (some ([68, 65, 79, 88, 0, 0, 0, 64] ++ List.replicate 48 0
            ++ [0, 0, 0, 0, 0, 0, 0, 1, 0, 0, 0, 0, 0, 0, 0, 3]
            ++ [78, 69, 82, 53, 0, 0, 0, 0, 0, 0, 0, 0])) none true).source = some data
        ∧ decodesDAOXAt data q
        ∧ daox = decodeDAOX (slice data (q + 8) 64)
        ∧ (FileSystem.mk (some ([68, 65, 79, 88, 0, 0, 0, 64] ++ List.replicate 48 0
            ++ [0, 0, 0, 0, 0, 0, 0, 1, 0, 0, 0, 0, 0, 0, 0, 3]
            ++ [78, 69, 82, 53, 0, 0, 0, 0, 0, 0, 0, 0])) none true).targetCreatable = true
        ∧ 0 ≤ daox.Index1
        ∧ ((daox.Index1 < daox.EndOfTrack ∧ daox.EndOfTrack ≤ (data.length : Int)
              ∧ (Outcome.mk none (some [65, 79])).target
                = some (slice data daox.Index1.toNat (daox.EndOfTrack - daox.Index1).toNat)
              ∧ (slice data daox.Index1.toNat (daox.EndOfTrack - daox.Index1).toNat).length
                = (daox.EndOfTrack - daox.Index1).toNat)
            ∨ (daox.EndOfTrack ≤ daox.Index1
              ∧ (Outcome.mk none (some [65, 79])).target = some [])) :=
  convert_success_inv
    ⟨some ([68, 65, 79, 88, 0, 0, 0, 64] ++ List.replicate 48 0
            ++ [0, 0, 0, 0, 0, 0, 0, 1, 0, 0, 0, 0, 0, 0, 0, 3]
            ++ [78, 69, 82, 53, 0, 0, 0, 0, 0, 0, 0, 0]), none, true⟩
    1 ⟨none, some [65, 79]⟩
    (by
      intro data hsrc
      simp only [Option.some.injEq] at hsrc
      subst hsrc
      simp only [List.length_append, List.length_replicate, List.length_cons, List.length_nil]
      norm_num)
    (by decide) rfl

/-- C13.  Every successful `readChunk` leaves the file as it is and moves the
stream at least 8 bytes forward.  So on a source of `data.length` bytes the loop of
`convert`, started at any offset `p`, ends within `(data.length - p) / 8 + 1`
iterations: it passes over `n ≤ (data.length - p) / 8` chunks and stops at a
position `q`, where it finds a `DAOX` chunk, an `END!` chunk, or neither, and in the
last case the result is the error of `readChunk` at `q` (truncated input or unknown
tag) wrapped in `failed reading source file`, with the target untouched.  `convert`
itself returns within `data.length / 8 + 1` iterations of its loop. -/
theorem convert_terminates (fs : FileSystem) (data : List Byte) (fuel : Nat)
    (hsrc : fs.source = some data) (hfuel : data.length / 8 + 1 ≤ fuel) :
    (∀ (f g : File) (c : Chunk), readChunk f = .ok (c, g) →
        g.data = f.data ∧ f.pos + 8 ≤ g.pos)
      ∧ (∀ p : Nat, ∃ (n q : Nat) (o : Outcome),
          n ≤ (data.length - p) / 8 ∧ loopPos data n p = some q
            ∧ chunkLoop ((data.length - p) / 8 + 1) ⟨data, p⟩ fs = some o
            ∧ chunkLoop fuel ⟨data, p⟩ fs = some o
            ∧ (chunkAt data q .DAOX ∨ chunkAt data q .END
                ∨ ∃ e : GoError, readChunk ⟨data, q⟩ = .error e
                    ∧ (truncatedInput e ∨ e = .unknownChunkID (slice data q 4))
                    ∧ o = { err := some (.wrap "failed reading source file" e)
                            target := fs.target }))
      ∧ ∃ o : Outcome, convert fuel fs = some o := by
  have hloop : ∀ p : Nat, ∃ (n q : Nat) (o : Outcome),
      n ≤ (data.length - p) / 8 ∧ loopPos data n p = some q
        ∧ (∀ k : Nat, n + 1 ≤ k → chunkLoop k ⟨data, p⟩ fs = some o)
        ∧ (chunkAt data q .DAOX ∨ chunkAt data q .END
            ∨ ∃ e : GoError, readChunk ⟨data, q⟩ = .error e
                ∧ (truncatedInput e ∨ e = .unknownChunkID (slice data q 4))
                ∧ o = { err := some (.wrap "failed reading source file" e)
                        target := fs.target }) := by
    intro p
    obtain ⟨n, q, hn, hl, hq⟩ := loopPos_stops data _ p (le_refl _)
    have hrun : ∀ (k : Nat) (o : Outcome), n + 1 ≤ k →
        (∀ j : Nat, chunkLoop (j + 1) ⟨data, q⟩ fs = some o) →
        chunkLoop k ⟨data, p⟩ fs = some o := by
      intro k o hk ho
      obtain ⟨j, hj⟩ : ∃ j, k = n + (j + 1) := ⟨k - n - 1, by omega⟩
      rw [hj, chunkLoop_loopPos data fs n p q (j + 1) hl]
      exact ho j
    rcases chunkLoop_stop data q fs hq with ⟨hat, he⟩ | ⟨hat, he⟩ | ⟨e, hr, he⟩
    · exact ⟨n, q, _, hn, hl, fun k hk => hrun k _ hk he, Or.inl hat⟩
    · exact ⟨n, q, _, hn, hl, fun k hk => hrun k _ hk he, Or.inr (Or.inl hat)⟩
    · exact ⟨n, q, _, hn, hl, fun k hk => hrun k _ hk he,
        Or.inr (Or.inr ⟨e, hr, readChunk_error_kind ⟨data, q⟩ e hr, rfl⟩)⟩
  refine ⟨?_, ?_, ?_⟩
  · intro f g c h
    obtain ⟨t, _, _, hg⟩ := readChunk_ok_inv f g c h
    rw [hg]
    exact ⟨rfl, by simp only []; omega⟩
  · intro p
    obtain ⟨n, q, o, hn, hl, hk, hcase⟩ := hloop p
    have hdiv : (data.length - p) / 8 ≤ data.length / 8 :=
      Nat.div_le_div_right (Nat.sub_le _ _)
    exact ⟨n, q, o, hn, hl, hk _ (by omega), hk _ (by omega), hcase⟩
  · rcases convert_cases fs data hsrc with ⟨e, he⟩ | ⟨off, _, hconv⟩
    · exact ⟨_, he fuel⟩
    · obtain ⟨n, q, o, hn, _, hk, _⟩ := hloop off
      have hdiv : (data.length - off) / 8 ≤ data.length / 8 :=
        Nat.div_le_div_right (Nat.sub_le _ _)
      exact ⟨o, by rw [hconv fuel]; exact hk _ (by omega)⟩

/-- Witness of C13: an `MTYP` chunk and a `SINF` chunk followed by the `NER5`
trailer with offset 0; the source has 36 bytes and `convert` returns within 5
iterations. -/
theorem convert_terminates_witness :
    ∃ o : Outcome,
      convert 5
        ⟨some [77, 84, 89, 80, 0, 0, 0, 4, 0, 0, 0, 1, 83, 73, 78, 70, 0, 0, 0, 4, 0, 0, 0, 2,
               78, 69, 82, 53, 0, 0, 0, 0, 0, 0, 0, 0], none, true⟩ = some o :=
  (convert_terminates
    ⟨some [77, 84, 89, 80, 0, 0, 0, 4, 0, 0, 0, 1, 83, 73, 78, 70, 0, 0, 0, 4, 0, 0, 0, 2,
           78, 69, 82, 53, 0, 0, 0, 0, 0, 0, 0, 0], none, true⟩
    _ 5 rfl (by decide)).2.2

/-- C15.  For every 64-byte `DAOX` body the decoded record is what the decoder of
`encoding/binary` produces when it fills the thirteen fields in declaration order,
each from the next bytes of its width, big-endian, signed where the type is signed.
`Index0`, `Index1` and `EndOfTrack` are the signed 64-bit values of body bytes
`[40, 48)`, `[48, 56)` and `[56, 64)`; the extraction depends on `Index1` and
`EndOfTrack` only, not on `Index0`, and the range it uses is `(Index1, EndOfTrack)`:
with a target that can be created and `0 ≤ Index1 ≤ EndOfTrack ≤ source length`,
the extraction, and the loop of `convert` on a `DAOX` chunk with this body, return
nil and leave in the target exactly the `EndOfTrack - Index1` source bytes
`[Index1, EndOfTrack)`; with `Index1 < 0` the seek to `Index1` fails. -/
theorem decodeDAOX_layout (b : List Byte) (hb : b.length = 64) :
    decodeFields (ChunkType.fields .DAOX) b = (decodeDAOX b).values
      ∧ decodeChunk .DAOX b = .DAOX (decodeDAOX b)
      ∧ (decodeDAOX b).Index0 = toSigned 64 (beUint (slice b 40 8))
      ∧ (decodeDAOX b).Index1 = toSigned 64 (beUint (slice b 48 8))
      ∧ (decodeDAOX b).EndOfTrack = toSigned 64 (beUint (slice b 56 8))
      ∧ (slice b 40 8).length = 8 ∧ (slice b 48 8).length = 8 ∧ (slice b 56 8).length = 8
      ∧ (∀ (inFile : File) (fs : FileSystem) (d : DAOX),
          d.Index1 = (decodeDAOX b).Index1 → d.EndOfTrack = (decodeDAOX b).EndOfTrack →
          extract inFile d fs = extract inFile (decodeDAOX b) fs)
      ∧ (∀ (data : List Byte) (p : Nat) (fs : FileSystem), fs.targetCreatable = true →
          0 ≤ (decodeDAOX b).Index1 → (decodeDAOX b).Index1 ≤ (decodeDAOX b).EndOfTrack →
          (decodeDAOX b).EndOfTrack ≤ (data.length : Int) →
          extract ⟨data, p⟩ (decodeDAOX b) fs
              = { err := none
                  target := some (slice data (decodeDAOX b).Index1.toNat
                    ((decodeDAOX b).EndOfTrack - (decodeDAOX b).Index1).toNat) }
            ∧ (slice data (decodeDAOX b).Index1.toNat
                ((decodeDAOX b).EndOfTrack - (decodeDAOX b).Index1).toNat).length
              = ((decodeDAOX b).EndOfTrack - (decodeDAOX b).Index1).toNat)
      ∧ (∀ (data : List Byte) (q fuel : Nat) (fs : FileSystem), chunkAt data q .DAOX →
          slice data (q + 8) 64 = b → fs.targetCreatable = true →
          0 ≤ (decodeDAOX b).Index1 → (decodeDAOX b).Index1 ≤ (decodeDAOX b).EndOfTrack →
          (decodeDAOX b).EndOfTrack ≤ (data.length : Int) →
          chunkLoop (fuel + 1) ⟨data, q⟩ fs
            = some { err := none
                     target := some (slice data (decodeDAOX b).Index1.toNat
                       ((decodeDAOX b).EndOfTrack - (decodeDAOX b).Index1).toNat) })
      ∧ (∀ (data : List Byte) (p : Nat) (fs : FileSystem), fs.targetCreatable = true →
          (decodeDAOX b).Index1 < 0 →
          extract ⟨data, p⟩ (decodeDAOX b) fs
            = { err := some (.wrap "seek error" .EINVAL), target := some [] }) := by
  have hE3 : (decodeDAOX b).EndOfTrack < 2 ^ 63 := (beInt64_range (slice b 56 8)).2
  refine ⟨decodeFields_DAOX b, rfl, rfl, rfl, rfl, ?_, ?_, ?_, ?_, ?_, ?_, ?_⟩
  · exact slice_length _ _ _ (by omega)
  · exact slice_length _ _ _ (by omega)
  · exact slice_length _ _ _ (by omega)
  · intro inFile fs d h1 h2
    exact extract_congr inFile d _ fs h1 h2
  · intro data p fs hc h0 h1 h2
    refine ⟨extract_ok data p _ fs hc h0 h1 h2 hE3, ?_⟩
    apply slice_length
    omega
  · intro data q fuel fs hat hbody hc h0 h1 h2
    have e : ChunkType.encodedSize .DAOX = 64 := by decide
    rw [chunkLoop_DAOX data q fuel fs hat, e, hbody, extract_ok data _ _ fs hc h0 h1 h2 hE3]
  · intro data p fs hc hneg
    rw [extract, Seek_Start_error _ _ hneg]
    simp only [hc, Bool.true_eq_false, if_false]

/-- Witness of C15: a body with `Index0 = -1`, `Index1 = 2`, `EndOfTrack = 3`; on a
source of four bytes the extraction with it writes the source byte at position 2. -/
theorem decodeDAOX_layout_witness :
    (decodeDAOX (List.replicate 40 0
        ++ [255, 255, 255, 255, 255, 255, 255, 255, 0, 0, 0, 0, 0, 0, 0, 2,
            0, 0, 0, 0, 0, 0, 0, 3])).Index0 = -1
      ∧ (decodeDAOX (List.replicate 40 0
        ++ [255, 255, 255, 255, 255, 255, 255, 255, 0, 0, 0, 0, 0, 0, 0, 2,
            0, 0, 0, 0, 0, 0, 0, 3])).Index1 = 2
      ∧ (decodeDAOX (List.replicate 40 0
        ++ [255, 255, 255, 255, 255, 255, 255, 255, 0, 0, 0, 0, 0, 0, 0, 2,
            0, 0, 0, 0, 0, 0, 0, 3])).EndOfTrack = 3
      ∧ extract ⟨[10, 20, 30, 40], 0⟩
          (decodeDAOX (List.replicate 40 0
            ++ [255, 255, 255, 255, 255, 255, 255, 255, 0, 0, 0, 0, 0, 0, 0, 2,
                0, 0, 0, 0, 0, 0, 0, 3]))
          ⟨none, some [1], true⟩
        = ⟨none, some [30]⟩ :=
  ⟨((decodeDAOX_layout (List.replicate 40 0
        ++ [255, 255, 255, 255, 255, 255, 255, 255, 0, 0, 0, 0, 0, 0, 0, 2,
            0, 0, 0, 0, 0, 0, 0, 3]) (by decide)).2.2.1).trans (by decide),
   ((decodeDAOX_layout (List.replicate 40 0
        ++ [255, 255, 255, 255, 255, 255, 255, 255, 0, 0, 0, 0, 0, 0, 0, 2,
            0, 0, 0, 0, 0, 0, 0, 3]) (by decide)).2.2.2.1).trans (by decide),
   ((decodeDAOX_layout (List.replicate 40 0
        ++ [255, 255, 255, 255, 255, 255, 255, 255, 0, 0, 0, 0, 0, 0, 0, 2,
            0, 0, 0, 0, 0, 0, 0, 3]) (by decide)).2.2.2.2.1).trans (by decide),
   (((decodeDAOX_layout (List.replicate 40 0
        ++ [255, 255, 255, 255, 255, 255, 255, 255, 0, 0, 0, 0, 0, 0, 0, 2,
            0, 0, 0, 0, 0, 0, 0, 3]) (by decide)).2.2.2.2.2.2.2.2.2.1
        [10, 20, 30, 40] 0 ⟨none, some [1], true⟩ rfl (by decide) (by decide) (by decide)).1).trans
      (by decide)⟩

/-- C18.  In every run of `convert` that reads no `DAOX` chunk (the source cannot be
opened, the format is not detected, the trailer offset is not read or is negative,
`readChunk` fails, or an `END!` chunk comes first) the target after the run is the
target before the run, and the run returns an error. -/
theorem convert_target_unchanged (fs : FileSystem) (fuel : Nat) (o : Outcome)
    (h : convert fuel fs = some o)
    (hno : ∀ (data : List Byte) (q : Nat), fs.source = some data → ¬ decodesDAOXAt data q) :
    o.target = fs.target ∧ o.err ≠ none := by
  cases hsrc : fs.source with
  | none =>
    rw [convert, hsrc] at h
    cases h
    exact ⟨rfl, by simp⟩
  | some data =>
    rcases convert_cases fs data hsrc with ⟨e, he⟩ | ⟨off, ht, hconv⟩
    · rw [he fuel] at h
      cases h
      exact ⟨rfl, by simp⟩
    · rw [hconv fuel] at h
      obtain ⟨n, q, _, hl, hq, h1⟩ := chunkLoop_some_inv data fs o fuel off h
      rcases chunkLoop_stop data q fs hq with ⟨hat, _⟩ | ⟨_, he⟩ | ⟨e, _, he⟩
      · exact absurd ⟨off, n, ht, hl, hat⟩ (hno data q hsrc)
      · rw [he 0] at h1
        cases h1
        exact ⟨rfl, by simp⟩
      · rw [he 0] at h1
        cases h1
        exact ⟨rfl, by simp⟩



/-- Witness of C18: the chunk stream is an `END!` header, the trailer is `NER5` with
offset 0, and the target holds three bytes before the run; it holds them after. -/
theorem convert_target_unchanged_witness :
    convert 1 ⟨some [69, 78, 68, 33, 0, 0, 0, 0, 78, 69, 82, 53, 0, 0, 0, 0, 0, 0, 0, 0],
               some [1, 2, 3], true⟩
        = some ⟨some (.wrapNil "image format not supported"), some [1, 2, 3]⟩
      ∧ (Outcome.mk (some (.wrapNil "image format not supported")) (some [1, 2, 3])).target
          = (FileSystem.mk
              (some [69, 78, 68, 33, 0, 0, 0, 0, 78, 69, 82, 53, 0, 0, 0, 0, 0, 0, 0, 0])
              (some [1, 2, 3]) true).target
      ∧ (Outcome.mk (some (.wrapNil "image format not supported")) (some [1, 2, 3])).err
          ≠ none :=
  ⟨by decide,
   convert_target_unchanged
    ⟨some [69, 78, 68, 33, 0, 0, 0, 0, 78, 69, 82, 53, 0, 0, 0, 0, 0, 0, 0, 0],
      some [1, 2, 3], true⟩
    1 ⟨some (.wrapNil "image format not supported"), some [1, 2, 3]⟩ (by decide)
    (by
      intro data q hsrc hd
      simp only [Option.some.injEq] at hsrc
      subst hsrc
      obtain ⟨off, n, ht, hl, hat⟩ := hd
      have e0 : beInt64 (slice [69, 78, 68, 33, 0, 0, 0, 0, 78, 69, 82, 53,
          0, 0, 0, 0, 0, 0, 0, 0] (20 - 8) 8) = 0 := by decide
      have hoff : off = 0 := by
        have h4 := ht.2.2.2
        simp only [List.length_cons, List.length_nil] at h4
        rw [e0] at h4
        omega
      subst hoff
      cases n with
      | zero =>
        simp only [loopPos, Option.some.injEq] at hl
        subst hl
        exact absurd hat (by decide)
      | succ n =>
        have hs : skipTo [69, 78, 68, 33, 0, 0, 0, 0, 78, 69, 82, 53,
            0, 0, 0, 0, 0, 0, 0, 0] 0 = none := by decide
        rw [loopPos, hs] at hl
        cases hl)⟩

end Nrg2Iso
